import Mathlib

/-!
# Verification of a multiplayer Texas Hold'em room engine

This development is a shallow embedding of the server-side hand/table engine
of a Texas Hold'em implementation.  The JavaScript source keeps one mutable
`room` object per table; here every operation is a pure function
`Room → Room` (timer callbacks become explicit transition steps), chips are
natural numbers, and the external hand evaluator (the `pokersolver` library)
is abstracted by a winner-selection function passed as a parameter.

Fields of the source objects that are purely observational (the activity log,
`winnerInfo`, `lastAction`, timestamps, socket bookkeeping) are omitted; every
field that the game logic reads is kept.
-/

namespace Poker

/-- `MAX_PLAYERS` from the source configuration. -/
def MAX_PLAYERS : Nat := 8

/-- `STARTING_STACK` from the source configuration. -/
def STARTING_STACK : Nat := 2000

/-- Rank characters, in source order (`RANKS`). -/
def RANKS : List String :=
  ["2", "3", "4", "5", "6", "7", "8", "9", "T", "J", "Q", "K", "A"]

/-- Suit characters, in source order (`SUITS`). -/
def SUITS : List String := ["s", "h", "d", "c"]

/-- The 52-card deck in construction order (`freshDeck` before shuffling):
`for (const r of RANKS) for (const s of SUITS) deck.push(r + s)`.
`freshDeck` returns a random permutation of this list; transitions that draw
a fresh deck therefore quantify over permutations of `standardDeck`. -/
def standardDeck : List String :=
  RANKS.flatMap (fun r => SUITS.map (fun s => r ++ s))

/-- A seated player.  `hole` is the list of face-down hole cards,
`betThisRound` the chips committed this street, `committed` the chips
committed over the whole hand. -/
structure Player where
  id : String
  seat : Nat
  stack : Nat
  folded : Bool
  allIn : Bool
  betThisRound : Nat
  committed : Nat
  hole : List String
  hasActed : Bool
deriving DecidableEq, Repr

/-- `room.state` values: `lobby`, `hand`, `reveal`, `showdown`. -/
inductive RState where
  | lobby | hand | reveal | showdown
deriving DecidableEq, Repr

/-- `room.stage` values: `preflop`, `flop`, `turn`, `river`. -/
inductive Stage where
  | preflop | flop | turn | river
deriving DecidableEq, Repr

/-- One table.  The `deck` list is a JavaScript array whose *last* element is
the top of the deck (`deck.pop()` deals). -/
structure Room where
  state : RState
  stage : Stage
  dealerSeat : Nat
  smallBlind : Nat
  bigBlind : Nat
  pot : Nat
  community : List String
  deck : List String
  currentSeat : Option Nat
  currentBet : Nat
  minRaise : Nat
  lastAggressorSeat : Option Nat
  players : List Player
deriving DecidableEq, Repr

/-- A side pot produced by `buildSidePots`: an amount and the ids of the
players eligible to win it. -/
structure Pot where
  amount : Nat
  eligible : List String
deriving DecidableEq, Repr

/-! ## List helpers mirroring in-place mutation of a found element

`room.players.find(...)` returns the first matching object and the source
mutates that object in place; these helpers rewrite the first matching entry
of the list. -/

/-- `action.toLowerCase()` (character-wise; the source's action strings are
ASCII). -/
def lowerString (s : String) : String := String.mk (s.data.map Char.toLower)

/-- Rewrite the first player with the given id. -/
def updateFirstById : List Player → String → (Player → Player) → List Player
  | [], _, _ => []
  | p :: ps, pid, f =>
    if p.id == pid then f p :: ps else p :: updateFirstById ps pid f

/-- Rewrite the first player at the given seat. -/
def updateFirstBySeat : List Player → Nat → (Player → Player) → List Player
  | [], _, _ => []
  | p :: ps, s, f =>
    if p.seat == s then f p :: ps else p :: updateFirstBySeat ps s f

/-- `room.players.find(p => p.id === playerId)`. -/
def findById (room : Room) (pid : String) : Option Player :=
  room.players.find? (fun q => q.id == pid)

/-- `room.players.find(x => x.seat === seat)`. -/
def findBySeat (room : Room) (s : Nat) : Option Player :=
  room.players.find? (fun q => q.seat == s)

/-! ## Seat/turn resolver -/

/-- Scan loop of `nextActiveSeat`: advances `(seat + 1) % MAX_PLAYERS` at most
`fuel` times looking for a seat whose player passes the filters. -/
def nextActiveSeatAux (room : Room) (incFolded incAllIn reqStack : Bool) :
    Nat → Nat → Option Nat
  | _, 0 => none
  | seat, fuel + 1 =>
    let seat' := (seat + 1) % MAX_PLAYERS
    match room.players.find? (fun q => q.seat == seat') with
    | none => nextActiveSeatAux room incFolded incAllIn reqStack seat' fuel
    | some p =>
      if !incFolded && p.folded then
        nextActiveSeatAux room incFolded incAllIn reqStack seat' fuel
      else if !incAllIn && p.allIn then
        nextActiveSeatAux room incFolded incAllIn reqStack seat' fuel
      else if reqStack && p.stack == 0 then
        nextActiveSeatAux room incFolded incAllIn reqStack seat' fuel
      else some seat'

/-- `nextActiveSeat(room, fromSeat, opts)`: the next seat in wrapping order
from `fromSeat` whose player is present and passes the requested filters
(`opts.includeFolded`, `opts.includeAllIn`, `opts.requireStack`); the scan is
bounded by `MAX_PLAYERS` iterations.  (The source's early return on an empty
seat list yields the same `none` as fuel exhaustion.) -/
def nextActiveSeat (room : Room) (fromSeat : Nat)
    (incFolded incAllIn reqStack : Bool) : Option Nat :=
  nextActiveSeatAux room incFolded incAllIn reqStack fromSeat MAX_PLAYERS

/-- `seatedPlayers`: players sorted by seat. -/
def seatedPlayers (room : Room) : List Player :=
  List.insertionSort (fun a b => a.seat ≤ b.seat) room.players

/-- `activeSeats`: seats of players with chips, in seat order. -/
def activeSeats (room : Room) : List Nat :=
  ((seatedPlayers room).filter (fun p => decide (0 < p.stack))).map (·.seat)

/-- `assignSeat`: smallest seat index not yet taken. -/
def assignSeat (room : Room) : Option Nat :=
  (List.range MAX_PLAYERS).find? (fun s => !(room.players.any (fun p => p.seat == s)))

/-! ## Chips -/

/-- `commitChips(room, player, wanted)`: moves
`pay = max(0, min(wanted, stack))` chips from the player's stack into the
pot, adding to `betThisRound` and `committed`, and marks the player all-in
when the stack reaches exactly zero.  The source mutates a player object the
caller found; here the player is addressed by id. -/
def commitChips (room : Room) (pid : String) (wanted : Nat) : Room :=
  match room.players.find? (fun q => q.id == pid) with
  | none => room
  | some p =>
    let pay := min wanted p.stack
    { room with
      pot := room.pot + pay
      players := updateFirstById room.players pid (fun q =>
        let stack' := q.stack - pay
        { q with
          stack := stack'
          betThisRound := q.betThisRound + pay
          committed := q.committed + pay
          allIn := if stack' == 0 then true else q.allIn }) }

/-! ## Round bookkeeping -/

/-- `shouldEndBettingRound(room)`: the street-closure predicate. -/
def shouldEndBettingRound (room : Room) : Bool :=
  let ps := room.players.filter (fun p => !p.folded && !p.allIn)
  if ps.length == 0 then true
  else
    (ps.all fun p => p.betThisRound == room.currentBet) &&
    (ps.all fun p => p.hasActed)

/-- `loneSurvivor(room)`: the single non-folded player, if exactly one. -/
def loneSurvivor (room : Room) : Option Player :=
  match room.players.filter (fun p => !p.folded) with
  | [p] => some p
  | _ => none

/-! ## Side pots -/

/-- The distinct positive committed levels, sorted ascending, as computed by
`buildSidePots`: `[...new Set(contrib.map(p => p.committed))].sort((a,b)=>a-b)`. -/
def levelsOf (players : List Player) : List Nat :=
  List.insertionSort (· ≤ ·)
    (((players.filter (fun p => decide (0 < p.committed))).map (·.committed)).dedup)

/-- Loop body of `buildSidePots`: one pot per level, carrying the previous
level `prev` along. -/
def potsFrom (contrib : List Player) : Nat → List Nat → List Pot
  | _, [] => []
  | prev, level :: rest =>
    let inThis := contrib.filter (fun p => decide (level ≤ p.committed))
    { amount := (level - prev) * inThis.length
      eligible := (inThis.filter (fun p => !p.folded)).map (·.id) } ::
    potsFrom contrib level rest

/-- `buildSidePots(players)`: layered side pots from unequal total
contributions. -/
def buildSidePots (players : List Player) : List Pot :=
  let contrib := players.filter (fun p => decide (0 < p.committed))
  if contrib.isEmpty then []
  else potsFrom contrib 0 (levelsOf players)

/-- The side-pot construction in the words of the specification: one pot per
level, in level order; the pot for level `L` with predecessor `P` (0 for the
first level) has amount `(L - P) * count(players with committed >= L)`, and
its eligible set is the non-folded players among those. -/
def specPots (players : List Player) : List Pot :=
  let levels := levelsOf players
  (List.range levels.length).map (fun i =>
    let L := levels.getD i 0
    let P := if i = 0 then 0 else levels.getD (i - 1) 0
    let atLeast := players.filter (fun p => decide (L ≤ p.committed))
    { amount := (L - P) * atLeast.length
      eligible := (atLeast.filter (fun p => !p.folded)).map (·.id) })

/-! ## Hand lifecycle -/

/-- `resetForNewHand(room)`, with the freshly shuffled deck passed in for the
source's `freshDeck()` call.  Note the per-player reset marks a player folded
exactly when their stack is `<= 0`, and clears `allIn` unconditionally. -/
def resetForNewHand (room : Room) (deck : List String) : Room :=
  { room with
    state := RState.hand
    stage := Stage.preflop
    community := []
    deck := deck
    pot := 0
    currentBet := 0
    minRaise := room.bigBlind
    lastAggressorSeat := none
    currentSeat := none
    players := room.players.map (fun p =>
      { p with
        folded := decide (p.stack ≤ 0)
        allIn := false
        betThisRound := 0
        committed := 0
        hole := []
        hasActed := false }) }

/-- `startBettingRound(room)` (flop/turn/river): zero the street state and
hand the action to the first live, non-all-in seat after the dealer. -/
def startBettingRound (room : Room) : Room :=
  let room' :=
    { room with
      currentBet := 0
      minRaise := room.bigBlind
      lastAggressorSeat := none
      players := room.players.map (fun p : Player =>
        if !p.folded && !p.allIn then
          { p with betThisRound := 0, hasActed := false }
        else p) }
  { room' with
    currentSeat := nextActiveSeat room' room'.dealerSeat false false false }

/-- One card off the top of the deck into the hole of the player at `s`
(`p.hole.push(room.deck.pop())`, guarded by the player being found; the
source's extra `p.stack >= 0` guard is always true for naturals).  An empty
deck deals nothing; the deck never empties in reachable states. -/
def dealOneTo (room : Room) (s : Nat) : Room :=
  match room.players.find? (fun q => q.seat == s) with
  | none => room
  | some _ =>
    match room.deck.getLast? with
    | none => room
    | some c =>
      { room with
        deck := room.deck.dropLast
        players := updateFirstBySeat room.players s
          (fun q => { q with hole := q.hole ++ [c] }) }

/-- The dealing loop of `dealHoleCards`: `n` single-card deals, stepping the
seat with `nextActiveSeat(..., {includeAllIn: true, includeFolded: true,
requireStack: true})` after each.  When no seat qualifies the source also
deals nothing. -/
def dealLoop : Room → Option Nat → Nat → Room
  | room, _, 0 => room
  | room, none, _ + 1 => room
  | room, some s, n + 1 =>
    let room' := dealOneTo room s
    dealLoop room' (nextActiveSeat room' s true true true) n

/-- `dealHoleCards(room)`: two passes of one card each over the seats with
chips, starting left of the dealer. -/
def dealHoleCards (room : Room) : Room :=
  let seats := activeSeats room
  if seats.length < 2 then room
  else
    dealLoop room (nextActiveSeat room room.dealerSeat true true true)
      (2 * seats.length)

/-- `postBlinds(room)`: posts small and big blind (heads-up: the dealer is
the small blind), sets `currentBet` to the larger posted street bet,
`minRaise` to the big blind, and the big blind seat as last aggressor;
returns the big-blind seat.  The unreachable lookup failures (fewer than two
seats with chips are rejected by `beginHand` first) leave the room
unchanged. -/
def postBlinds (room : Room) : Room × Option Nat :=
  let seats := activeSeats room
  if seats.length < 2 then (room, none)
  else
    let sbSeat? :=
      if seats.length == 2 then some room.dealerSeat
      else nextActiveSeat room room.dealerSeat true true true
    match sbSeat? with
    | none => (room, none)
    | some sbSeat =>
      match nextActiveSeat room sbSeat true true true with
      | none => (room, none)
      | some bbSeat =>
        match room.players.find? (fun q => q.seat == sbSeat),
              room.players.find? (fun q => q.seat == bbSeat) with
        | some sb, some bb =>
          let r1 := commitChips room sb.id room.smallBlind
          let r2 := commitChips r1 bb.id room.bigBlind
          let sbBet := (((r2.players.find? (fun q => q.seat == sbSeat)).map
            (·.betThisRound)).getD 0)
          let bbBet := (((r2.players.find? (fun q => q.seat == bbSeat)).map
            (·.betThisRound)).getD 0)
          ({ r2 with
              currentBet := max sbBet bbBet
              minRaise := room.bigBlind
              lastAggressorSeat := some bbSeat
              players := r2.players.map (fun p =>
                if !p.folded && !p.allIn then { p with hasActed := false }
                else p) },
            some bbSeat)
        | _, _ => (room, none)

/-- `firstToActPreflop(room, bbSeat)`: heads-up the dealer (small blind) acts
first, otherwise the first live seat with chips after the big blind. -/
def firstToActPreflop (room : Room) (bbSeat : Option Nat) : Option Nat :=
  if (activeSeats room).length == 2 then some room.dealerSeat
  else
    match bbSeat with
    | some b => nextActiveSeat room b false false true
    | none => none

/-- `beginHand`'s dealer-button move: the next seat with chips, or the first
such seat when the current button is not on one.  (The `getD` fallback is
unreachable: with two funded seats the scan always succeeds.) -/
def beginHandDealer (room : Room) : Nat :=
  if (activeSeats room).contains room.dealerSeat then
    (nextActiveSeat room room.dealerSeat true true true).getD room.dealerSeat
  else (activeSeats room).headD 0

/-- The committed part of `beginHand` once the two-funded-players check has
passed: reset, post blinds, deal, seat the first actor. -/
def beginHandGo (room : Room) (deck : List String) : Room :=
  let room1 := resetForNewHand { room with dealerSeat := beginHandDealer room } deck
  let pb := postBlinds room1
  let room3 := dealHoleCards pb.1
  { room3 with currentSeat := firstToActPreflop room3 pb.2 }

/-- `beginHand(room)` with the fresh deck passed in: moves the dealer button,
resets per-hand state, posts blinds, deals hole cards and seats the first
actor.  With fewer than two funded players the room falls back to the
lobby. -/
def beginHand (room : Room) (deck : List String) : Room :=
  if (activeSeats room).length < 2 then { room with state := RState.lobby }
  else beginHandGo room deck

/-- `moveToNextActor(room)`: pass the action to the next live, non-all-in
seat with chips. -/
def moveToNextActor (room : Room) : Room :=
  match room.currentSeat with
  | some s => { room with currentSeat := nextActiveSeat room s false false true }
  | none => { room with currentSeat := none }

/-- The synchronous part of `awardPotTo(room, player)`: the lone survivor's
stack grows by the whole pot (which is *not* zeroed) and the room enters its
reveal pause; the scheduled showdown resolution is a separate transition. -/
def awardPotToSync (room : Room) (pid : String) : Room :=
  { room with
    state := RState.reveal
    currentSeat := none
    players := updateFirstById room.players pid
      (fun q => { q with stack := q.stack + room.pot }) }

/-- `n` community cards off the top of the deck (`room.community.push(room.deck.pop())`). -/
def dealCommunity : Room → Nat → Room
  | room, 0 => room
  | room, n + 1 =>
    let room' :=
      match room.deck.getLast? with
      | none => room
      | some c =>
        { room with deck := room.deck.dropLast, community := room.community ++ [c] }
    dealCommunity room' n

/-- The synchronous part of `advanceStage(room)`: deal the next street and
start its betting round; from the river, enter the reveal pause (the
scheduled showdown is a separate transition). -/
def advanceStageSync (room : Room) : Room :=
  match room.stage with
  | Stage.preflop => startBettingRound { (dealCommunity room 3) with stage := Stage.flop }
  | Stage.flop => startBettingRound { (dealCommunity room 1) with stage := Stage.turn }
  | Stage.turn => startBettingRound { (dealCommunity room 1) with stage := Stage.river }
  | Stage.river => { room with state := RState.reveal, currentSeat := none }

/-- The fast-forward loop of the action handler: when nobody can act any
more, deal every remaining street with no betting and enter the reveal
pause. -/
def dealThroughReveal (room : Room) : Room :=
  let r1 :=
    if room.stage = Stage.preflop then
      { (dealCommunity room 3) with stage := Stage.flop }
    else room
  let r2 :=
    if r1.stage = Stage.flop then
      { (dealCommunity r1 1) with stage := Stage.turn }
    else r1
  let r3 :=
    if r2.stage = Stage.turn then
      { (dealCommunity r2 1) with stage := Stage.river }
    else r2
  { r3 with state := RState.reveal, currentSeat := none }

/-- The tail of `handlePlayerAction` after a branch accepted an action: lone
survivor payoff, round closure with fast-forward or street advance, or
passing the action on. -/
def postPhase (room : Room) : Room :=
  match loneSurvivor room with
  | some p => awardPotToSync room p.id
  | none =>
    if shouldEndBettingRound room then
      let stillCanAct := room.players.any (fun x => !x.folded && !x.allIn)
      if stillCanAct then advanceStageSync room
      else dealThroughReveal room
    else moveToNextActor room

/-- Mark the acting player as having acted. -/
def markActed (room : Room) (pid : String) : Room :=
  { room with
    players := updateFirstById room.players pid (fun q => { q with hasActed := true }) }

/-- The `fold` branch: mark the player folded and acted. -/
def applyFold (room : Room) (pid : String) : Room :=
  { room with
    players := updateFirstById room.players pid
      (fun q => { q with folded := true, hasActed := true }) }

/-- `minTo` of the bet/raise branch: the smallest legal total street amount,
`currentBet == 0 ? bigBlind : currentBet + minRaise`. -/
def betMinTo (room : Room) : Nat :=
  if room.currentBet == 0 then room.bigBlind else room.currentBet + room.minRaise

/-- The proposed total of the bet/raise branch after clamping to the
player's full commitment `betThisRound + stack`. -/
def betClamped (p : Player) (desiredTotal : Nat) : Nat :=
  min desiredTotal (p.betThisRound + p.stack)

/-- Raise-side bookkeeping shared by the `bet`/`raise` and `all-in`
branches: when the new total exceeds the previous table bet, record it as
`currentBet`, enlarge `minRaise` when the raise size reaches it, set the
aggressor, and make every other live, non-all-in player act again. -/
def applyRaiseUpdates (room : Room) (pid : String) (seat : Nat)
    (prevBet newTotal oldMinRaise : Nat) : Room :=
  if prevBet < newTotal then
    let raiseSize := newTotal - prevBet
    { room with
      currentBet := newTotal
      minRaise := if oldMinRaise ≤ raiseSize then raiseSize else oldMinRaise
      lastAggressorSeat := some seat
      players := room.players.map (fun o =>
        if o.id == pid then o
        else if o.folded || o.allIn then o
        else { o with hasActed := false }) }
  else room

/-- The `bet`/`raise` branch (`handlePlayerAction`, bet/raise case): `p` is
the acting player as found by the handler, `amount` the proposed total
street amount.  Returns `none` for a silently rejected (no-op) action. -/
def applyBetRaise (room : Room) (p : Player) (amount : Int) : Option Room :=
  if amount ≤ 0 then none
  else
    let desiredTotal := amount.toNat
    let prevBet := room.currentBet
    let minTo := betMinTo room
    let maxTotalPossible := p.betThisRound + p.stack
    let clamped := betClamped p desiredTotal
    if clamped < minTo ∧ clamped ≠ maxTotalPossible then none
    else
      let toPay := clamped - p.betThisRound
      if toPay == 0 then none
      else
        let room1 := commitChips room p.id toPay
        let room2 := applyRaiseUpdates room1 p.id p.seat prevBet clamped room.minRaise
        some (markActed room2 p.id)

/-- The `all-in` branch: commit the whole remaining stack as a bet/raise to
`betThisRound + stack`. -/
def applyAllIn (room : Room) (p : Player) : Option Room :=
  let desiredTotal := p.betThisRound + p.stack
  if desiredTotal == 0 then none
  else
    let prevBet := room.currentBet
    let toPay := min p.stack (desiredTotal - p.betThisRound)
    if toPay == 0 then none
    else
      let room1 := commitChips room p.id toPay
      let room2 := applyRaiseUpdates room1 p.id p.seat prevBet desiredTotal room.minRaise
      some (markActed room2 p.id)

/-- `handlePlayerAction(room, p, action, amount)`: the full synchronous
action handler.  Actions submitted outside the `hand` state, out of turn, or
by a folded or all-in player are silent no-ops, as are ill-formed amounts;
the scheduled showdown/next-hand continuations are separate transitions. -/
def handlePlayerAction (room : Room) (pid : String) (action : String)
    (amount : Int) : Room :=
  match room.players.find? (fun q => q.id == pid) with
  | none => room
  | some p =>
    if room.state ≠ RState.hand then room
    else
      match room.currentSeat with
      | none => room
      | some cs =>
        if p.seat ≠ cs then room
        else if p.folded then room
        else if p.allIn then room
        else
          let callAmount := room.currentBet - p.betThisRound
          let act := lowerString action
          if act == "fold" then postPhase (applyFold room pid)
          else if act == "check" then
            if callAmount ≠ 0 then room else postPhase (markActed room pid)
          else if act == "call" then
            if callAmount == 0 then postPhase (markActed room pid)
            else postPhase (markActed (commitChips room pid callAmount) pid)
          else if act == "all-in" then
            match applyAllIn room p with
            | none => room
            | some r => postPhase r
          else if act == "bet" || act == "raise" then
            match applyBetRaise room p amount with
            | none => room
            | some r => postPhase r
          else room

/-! ## Showdown -/

/-- Add chips to the stack of the player with the given id. -/
def payTo (room : Room) (pid : String) (amt : Nat) : Room :=
  { room with
    players := updateFirstById room.players pid
      (fun q => { q with stack := q.stack + amt }) }

/-- The ids whose hole cards `resolveShowdown` feeds to the external hand
evaluator (`Hand.solve`): every non-folded player. -/
def showdownEvaluatedIds (room : Room) : List String :=
  (room.players.filter (fun p => !p.folded)).map (·.id)

/-- `resolveShowdown(room)`, parameterised by the evaluator's winner
selection `winnersOf`: for each side pot, the winners among the eligible
live players split the pot by integer division, the remainder going to the
first winner.  The library's `Hand.winners` returns a non-empty subset of a
non-empty input; an empty selection (unreachable for a faithful evaluator)
skips the pot. -/
def resolveShowdown (winnersOf : List String → List String) (room : Room) : Room :=
  let pots := buildSidePots room.players
  let liveIds := showdownEvaluatedIds room
  pots.foldl (fun r pot =>
    let elig := pot.eligible.filter (fun i => liveIds.contains i)
    if elig.isEmpty then r
    else
      match winnersOf elig with
      | [] => r
      | w0 :: ws =>
        let winners := w0 :: ws
        let share := pot.amount / winners.length
        let remainder := pot.amount - share * winners.length
        let r1 := winners.foldl (fun rr wid => payTo rr wid share) r
        if 0 < remainder then payTo r1 w0 remainder else r1) room

/-- The scheduled continuation out of the reveal pause (both after a normal
river and after a lone-survivor award): resolve the showdown and enter the
`showdown` state. -/
def revealPipeline (winnersOf : List String → List String) (room : Room) : Room :=
  let r := resolveShowdown winnersOf room
  { r with state := RState.showdown, currentSeat := none }

/-- The scheduled continuation out of the `showdown` state: reset per-hand
player fields (a busted player starts folded) and either begin the next hand
with a fresh deck or fall back to the lobby. -/
def nextHandReset (room : Room) (deck : List String) : Room :=
  let room1 :=
    { room with
      state := RState.lobby
      stage := Stage.preflop
      players := room.players.map (fun pl =>
        { pl with
          folded := decide (pl.stack ≤ 0)
          allIn := false
          betThisRound := 0
          committed := 0
          hole := []
          hasActed := false }) }
  if 2 ≤ (activeSeats room1).length then beginHand room1 deck else room1

/-! ## Lobby-level operations -/

/-- A freshly seated player. -/
def newPlayer (pid : String) (seat : Nat) : Player :=
  { id := pid
    seat := seat
    stack := STARTING_STACK
    folded := false
    allIn := false
    betThisRound := 0
    committed := 0
    hole := []
    hasActed := false }

/-- The room as `createLobby` builds it, with the host seated at seat 0. -/
def initRoom (hostId : String) : Room :=
  { state := RState.lobby
    stage := Stage.preflop
    dealerSeat := 0
    smallBlind := 10
    bigBlind := 20
    pot := 0
    community := []
    deck := []
    currentSeat := none
    currentBet := 0
    minRaise := 20
    lastAggressorSeat := none
    players := [newPlayer hostId 0] }

/-- `joinLobby`: seats a new player in the lowest free seat; full rooms and
rooms already playing reject the join. -/
def joinRoom (room : Room) (pid : String) : Room :=
  if MAX_PLAYERS ≤ room.players.length then room
  else if room.state ≠ RState.lobby then room
  else
    match assignSeat room with
    | none => room
    | some seat => { room with players := room.players ++ [newPlayer pid seat] }

/-- `setBlinds`: the small blind is clamped to at least 1 and the big blind
to strictly above the small blind. -/
def setBlindsOp (room : Room) (sb bb : Nat) : Room :=
  let sb' := max 1 sb
  let bb' := max (sb' + 1) bb
  { room with smallBlind := sb', bigBlind := bb' }

/-- `startGame`: host starts a hand from the lobby or from a finished
showdown. -/
def startGameOp (room : Room) (deck : List String) : Room :=
  if room.state = RState.lobby ∨ room.state = RState.showdown then
    beginHand room deck
  else room

/-! ## The room transition system -/

/-- A faithful stand-in for the evaluator's `Hand.winners`: it returns a
subsequence of the competing entries and never an empty one when there are
entries. -/
def ValidWinners (winnersOf : List String → List String) : Prop :=
  ∀ l : List String, (winnersOf l).Sublist l ∧ (l ≠ [] → winnersOf l ≠ [])

/-- One transition of a room: a lobby join, a blinds change, the host
starting a hand (with some shuffled deck), a submitted player action, or one
of the two scheduled timer continuations (reveal → showdown,
showdown → next hand). -/
inductive Step : Room → Room → Prop
  | join (room : Room) (pid : String) : Step room (joinRoom room pid)
  | blinds (room : Room) (sb bb : Nat) : Step room (setBlindsOp room sb bb)
  | start (room : Room) (deck : List String) (hdeck : deck.Perm standardDeck) :
      Step room (startGameOp room deck)
  | act (room : Room) (pid action : String) (amount : Int) :
      Step room (handlePlayerAction room pid action amount)
  | reveal (room : Room) (winnersOf : List String → List String)
      (hwf : ValidWinners winnersOf) (hst : room.state = RState.reveal) :
      Step room (revealPipeline winnersOf room)
  | nextHand (room : Room) (deck : List String) (hdeck : deck.Perm standardDeck)
      (hst : room.state = RState.showdown) :
      Step room (nextHandReset room deck)

/-- The states a room created by `hostId` can reach. -/
def Reachable (hostId : String) (room : Room) : Prop :=
  Relation.ReflTransGen Step (initRoom hostId) room

/-! ## Invariants under scrutiny -/

/-- A player with an empty stack is folded or all-in. -/
def StackZeroFlagOk (p : Player) : Prop :=
  p.stack = 0 → p.folded = true ∨ p.allIn = true

/-- Room-level form of `StackZeroFlagOk`. -/
def ZeroAllInOk (room : Room) : Prop :=
  ∀ p ∈ room.players, StackZeroFlagOk p

/-- The multiset of all hole cards held by a list of players. -/
def holesSum (ps : List Player) : Multiset String :=
  (ps.map (fun p => (p.hole : Multiset String))).sum

/-- All cards in play: the remaining deck, every player's hole cards and the
board. -/
def cardBag (room : Room) : Multiset String :=
  (room.deck : Multiset String) + holesSum room.players +
    (room.community : Multiset String)

/-- Outside the lobby the cards in play are exactly the 52-card deck. -/
def CardsOk (room : Room) : Prop :=
  room.state ≠ RState.lobby → cardBag room = (standardDeck : Multiset String)

/-- While a hand is running, the acting seat (when set) belongs to a seated,
non-folded player. -/
def SeatOk (room : Room) : Prop :=
  room.state = RState.hand → ∀ s, room.currentSeat = some s →
    ∃ p ∈ room.players, p.seat = s ∧ p.folded = false

/-- Sum of all players' stacks. -/
def stackSum (room : Room) : Nat :=
  (room.players.map (·.stack)).sum

/-- The per-player slice of the side-pot sum: what one committed total `c`
contributes across the levels, carrying the previous level along.  Used to
telescope the total of `buildSidePots`. -/
def playerShare : Nat → List Nat → Nat → Nat
  | _, [], _ => 0
  | prev, level :: rest, c =>
    (if level ≤ c then level - prev else 0) + playerShare level rest c

/-! ## Concrete scenarios

A heads-up table: host `A` creates the room, `B` joins, and the hand starts
with the unshuffled deck (one legal outcome of the Fisher–Yates shuffle).
The dealer button moves to seat 1, so `B` is dealer/small blind and acts
first preflop. -/

/-- A deterministic stand-in for `Hand.winners`: the first entry wins. -/
def takeOneWinners : List String → List String := fun l => l.take 1

/-- Heads-up room right after the blinds and hole cards: `A` posted the big
blind 20, `B` (dealer) the small blind 10, and `B` is to act. -/
def twoSeatRoom : Room := startGameOp (joinRoom (initRoom "A") "B") standardDeck

/-- `B` folds: `A` is the lone survivor and is awarded the pot. -/
def foldActionRoom : Room := handlePlayerAction twoSeatRoom "B" "fold" 0

/-- The scheduled showdown resolution that `awardPotTo` starts anyway. -/
def foldPipelineRoom : Room := revealPipeline takeOneWinners foldActionRoom

/-- `B` moves all-in for 2000. -/
def allInRoom : Room := handlePlayerAction twoSeatRoom "B" "all-in" 0

/-- `A` calls all-in; the board is fast-forwarded and the room reaches the
reveal pause. -/
def callRoom : Room := handlePlayerAction allInRoom "A" "call" 0

/-- The showdown: `A` (first eligible entry) wins the whole 4000 pot. -/
def bustShowdownRoom : Room := revealPipeline takeOneWinners callRoom

/-- The scheduled next-hand reset: `B` is busted, only one funded player
remains, so the room returns to the lobby. -/
def bustedLobbyRoom : Room := nextHandReset bustShowdownRoom standardDeck

/-- Three non-folded players with committed totals 100/100/300
(the side-pot example). -/
def sidePotPlayer (n : String) (c : Nat) : Player :=
  { id := n, seat := 0, stack := 0, folded := false, allIn := false,
    betThisRound := 0, committed := c, hole := [], hasActed := false }

/-- Committed totals `[100, 100, 300]`. -/
def sidePotExample : List Player :=
  [sidePotPlayer "a" 100, sidePotPlayer "b" 100, sidePotPlayer "c" 300]

/-- Committed totals `[300, 100, 300]`: a short all-in at 100 covered by two
players who both went to 300. -/
def sidePotExample' : List Player :=
  [sidePotPlayer "a" 300, sidePotPlayer "b" 100, sidePotPlayer "c" 300]

/-- The busted player of the all-in scenario (`B`, at index 1). -/
def bustedPlayerB : Player := bustedLobbyRoom.players.getD 1 (newPlayer "x" 0)

/-- The acting player (`B`, dealer/small blind) of the heads-up scenario. -/
def bPlayer : Player := (findById twoSeatRoom "B").getD (newPlayer "x" 0)

/-- A three-seat lobby in which the player at seat 1 has busted (stack 0)
while the other two are funded, so a hand can still start around them. -/
def bustTrioRoom : Room :=
  { initRoom "A" with
    players := [newPlayer "A" 0, { newPlayer "B" 1 with stack := 0 },
      newPlayer "C" 2] }

/-- The busted seat-1 player after a hand starts at `bustTrioRoom`. -/
def bustedTrioQ : Player :=
  (beginHand bustTrioRoom standardDeck).players.getD 1 (newPlayer "x" 0)

/-- A player marked folded by the new-hand reset is broke and holds no
cards; invariant carried from `resetForNewHand` through blinds and
dealing. -/
def BustedSitsOut (q : Player) : Prop :=
  (q.folded = true → q.stack = 0) ∧ (q.folded = true → q.hole = [])

/-! # Theorems -/

/-- `takeOneWinners` is a faithful evaluator stand-in. -/
theorem takeOneWinners_valid : ValidWinners takeOneWinners := by
  intro l
  refine ⟨List.take_sublist 1 l, ?_⟩
  cases l with
  | nil => intro h; exact absurd rfl h
  | cons a l => intro _; simp [takeOneWinners]

/-- The heads-up table with blinds posted is reachable. -/
theorem reach_twoSeatRoom : Reachable "A" twoSeatRoom :=
  Relation.ReflTransGen.tail
    (Relation.ReflTransGen.single (Step.join (initRoom "A") "B"))
    (Step.start _ standardDeck (List.Perm.refl _))

/-- ... after `B` shoves all-in. -/
theorem reach_allInRoom : Reachable "A" allInRoom :=
  Relation.ReflTransGen.tail reach_twoSeatRoom (Step.act _ "B" "all-in" 0)

/-- ... after `A` calls all-in (reveal pause, board fast-forwarded). -/
theorem reach_callRoom : Reachable "A" callRoom :=
  Relation.ReflTransGen.tail reach_allInRoom (Step.act _ "A" "call" 0)

/-- ... after the scheduled showdown resolution. -/
theorem reach_bustShowdownRoom : Reachable "A" bustShowdownRoom :=
  Relation.ReflTransGen.tail reach_callRoom
    (Step.reveal _ takeOneWinners takeOneWinners_valid (by decide))

/-- ... after the scheduled next-hand reset (back to the lobby: only one
player still has chips). -/
theorem reach_bustedLobbyRoom : Reachable "A" bustedLobbyRoom :=
  Relation.ReflTransGen.tail reach_bustShowdownRoom
    (Step.nextHand _ standardDeck (List.Perm.refl _) (by decide))

/-- C8, counterexample: a reachable room (heads-up, `B` lost an all-in and
the next-hand reset ran) contains a player with `stack = 0` and
`allIn = false` — `resetForNewHand`-style resets clear `allIn`
unconditionally and park busted players as folded instead. -/
theorem C8_counterexample :
    Reachable "A" bustedLobbyRoom ∧
    ∃ p ∈ bustedLobbyRoom.players, p.stack = 0 ∧ p.allIn = false :=
  ⟨reach_bustedLobbyRoom, by decide⟩

/-! ## Preservation of `ZeroAllInOk` -/

/-- Membership in an `updateFirstById` rewrite comes from an old member,
possibly through the update. -/
theorem mem_updateFirstById {ps : List Player} {pid : String} {f : Player → Player}
    {q : Player} (hq : q ∈ updateFirstById ps pid f) :
    q ∈ ps ∨ ∃ p, p ∈ ps ∧ q = f p := by
  induction ps with
  | nil => simp [updateFirstById] at hq
  | cons p ps ih =>
    simp only [updateFirstById] at hq
    split at hq
    · rcases List.mem_cons.mp hq with rfl | hq'
      · exact Or.inr ⟨_, List.mem_cons_self _ _, rfl⟩
      · exact Or.inl (List.mem_cons_of_mem _ hq')
    · rcases List.mem_cons.mp hq with rfl | hq'
      · exact Or.inl (List.mem_cons_self _ _)
      · rcases ih hq' with h | ⟨p', hp', rfl⟩
        · exact Or.inl (List.mem_cons_of_mem _ h)
        · exact Or.inr ⟨p', List.mem_cons_of_mem _ hp', rfl⟩

/-- Membership in an `updateFirstBySeat` rewrite comes from an old member,
possibly through the update. -/
theorem mem_updateFirstBySeat {ps : List Player} {s : Nat} {f : Player → Player}
    {q : Player} (hq : q ∈ updateFirstBySeat ps s f) :
    q ∈ ps ∨ ∃ p, p ∈ ps ∧ q = f p := by
  induction ps with
  | nil => simp [updateFirstBySeat] at hq
  | cons p ps ih =>
    simp only [updateFirstBySeat] at hq
    split at hq
    · rcases List.mem_cons.mp hq with rfl | hq'
      · exact Or.inr ⟨_, List.mem_cons_self _ _, rfl⟩
      · exact Or.inl (List.mem_cons_of_mem _ hq')
    · rcases List.mem_cons.mp hq with rfl | hq'
      · exact Or.inl (List.mem_cons_self _ _)
      · rcases ih hq' with h | ⟨p', hp', rfl⟩
        · exact Or.inl (List.mem_cons_of_mem _ h)
        · exact Or.inr ⟨p', List.mem_cons_of_mem _ hp', rfl⟩

/-- `StackZeroFlagOk` only looks at `stack`, `folded`, `allIn`. -/
theorem StackZeroFlagOk.congr {q q' : Player} (h : StackZeroFlagOk q)
    (hs : q'.stack = q.stack) (hf : q'.folded = q.folded)
    (ha : q'.allIn = q.allIn) : StackZeroFlagOk q' := by
  intro hz
  rw [hs] at hz
  rw [hf, ha]
  exact h hz

theorem zeroAllInOk_updateFirstById {room : Room} {rest : List Player → Room}
    {pid : String} {f : Player → Player}
    (h : ZeroAllInOk room)
    (hf : ∀ p, StackZeroFlagOk p → StackZeroFlagOk (f p))
    (hrest : (rest (updateFirstById room.players pid f)).players =
      updateFirstById room.players pid f) :
    ZeroAllInOk (rest (updateFirstById room.players pid f)) := by
  intro q hq
  rw [hrest] at hq
  rcases mem_updateFirstById hq with hq' | ⟨p, hp, rfl⟩
  · exact h q hq'
  · exact hf p (h p hp)

theorem zeroAllInOk_commitChips {room : Room} {pid : String} {wanted : Nat}
    (h : ZeroAllInOk room) : ZeroAllInOk (commitChips room pid wanted) := by
  unfold commitChips
  split
  · exact h
  · intro q hq
    rcases mem_updateFirstById hq with hq' | ⟨p', hp', rfl⟩
    · exact h q hq'
    · intro hz
      right
      simp only at hz ⊢
      simp [hz]

theorem zeroAllInOk_markActed {room : Room} {pid : String}
    (h : ZeroAllInOk room) : ZeroAllInOk (markActed room pid) := by
  intro q hq
  rcases mem_updateFirstById hq with hq' | ⟨p, hp, rfl⟩
  · exact h q hq'
  · exact (h p hp).congr rfl rfl rfl

theorem zeroAllInOk_applyFold {room : Room} {pid : String}
    (h : ZeroAllInOk room) : ZeroAllInOk (applyFold room pid) := by
  intro q hq
  rcases mem_updateFirstById hq with hq' | ⟨p, hp, rfl⟩
  · exact h q hq'
  · exact fun _ => Or.inl rfl

theorem zeroAllInOk_payTo {room : Room} {pid : String} {amt : Nat}
    (h : ZeroAllInOk room) : ZeroAllInOk (payTo room pid amt) := by
  intro q hq
  rcases mem_updateFirstById hq with hq' | ⟨p, hp, rfl⟩
  · exact h q hq'
  · intro hz
    have hz' : p.stack + amt = 0 := hz
    exact h p hp (by omega)

theorem zeroAllInOk_awardPotToSync {room : Room} {pid : String}
    (h : ZeroAllInOk room) : ZeroAllInOk (awardPotToSync room pid) := by
  intro q hq
  rcases mem_updateFirstById hq with hq' | ⟨p, hp, rfl⟩
  · exact h q hq'
  · intro hz
    have hz' : p.stack + room.pot = 0 := hz
    exact h p hp (by omega)

theorem zeroAllInOk_applyRaiseUpdates {room : Room} {pid : String}
    {seat prevBet newTotal oldMinRaise : Nat} (h : ZeroAllInOk room) :
    ZeroAllInOk (applyRaiseUpdates room pid seat prevBet newTotal oldMinRaise) := by
  unfold applyRaiseUpdates
  split
  · intro q hq
    rcases List.mem_map.mp hq with ⟨p, hp, rfl⟩
    refine (h p hp).congr ?_ ?_ ?_ <;> (split <;> try rfl) <;> (split <;> rfl)
  · exact h

theorem zeroAllInOk_applyBetRaise {room r : Room} {p : Player} {amount : Int}
    (heq : applyBetRaise room p amount = some r) (h : ZeroAllInOk room) :
    ZeroAllInOk r := by
  unfold applyBetRaise at heq
  dsimp only at heq
  split at heq
  · exact absurd heq (by simp)
  · split at heq
    · exact absurd heq (by simp)
    · split at heq
      · exact absurd heq (by simp)
      · cases heq
        exact zeroAllInOk_markActed (zeroAllInOk_applyRaiseUpdates
          (zeroAllInOk_commitChips h))

theorem zeroAllInOk_applyAllIn {room r : Room} {p : Player}
    (heq : applyAllIn room p = some r) (h : ZeroAllInOk room) :
    ZeroAllInOk r := by
  unfold applyAllIn at heq
  dsimp only at heq
  split at heq
  · exact absurd heq (by simp)
  · split at heq
    · exact absurd heq (by simp)
    · cases heq
      exact zeroAllInOk_markActed (zeroAllInOk_applyRaiseUpdates
        (zeroAllInOk_commitChips h))

theorem zeroAllInOk_startBettingRound {room : Room}
    (h : ZeroAllInOk room) : ZeroAllInOk (startBettingRound room) := by
  intro q hq
  rcases List.mem_map.mp hq with ⟨p, hp, rfl⟩
  refine (h p hp).congr ?_ ?_ ?_ <;> (split <;> rfl)

theorem zeroAllInOk_dealOneTo {room : Room} {s : Nat}
    (h : ZeroAllInOk room) : ZeroAllInOk (dealOneTo room s) := by
  unfold dealOneTo
  split
  · exact h
  · split
    · exact h
    · intro q hq
      rcases mem_updateFirstBySeat hq with hq' | ⟨p, hp, rfl⟩
      · exact h q hq'
      · exact (h p hp).congr rfl rfl rfl

theorem zeroAllInOk_dealLoop {room : Room} {seat? : Option Nat} {n : Nat}
    (h : ZeroAllInOk room) : ZeroAllInOk (dealLoop room seat? n) := by
  induction n generalizing room seat? with
  | zero => cases seat? <;> exact h
  | succ n ih =>
    cases seat? with
    | none => exact h
    | some s => exact ih (zeroAllInOk_dealOneTo h)

theorem zeroAllInOk_dealCommunity {room : Room} {n : Nat}
    (h : ZeroAllInOk room) : ZeroAllInOk (dealCommunity room n) := by
  induction n generalizing room with
  | zero => exact h
  | succ n ih =>
    refine ih ?_
    split
    · exact h
    · exact h

theorem zeroAllInOk_advanceStageSync {room : Room}
    (h : ZeroAllInOk room) : ZeroAllInOk (advanceStageSync room) := by
  unfold advanceStageSync
  split
  · exact zeroAllInOk_startBettingRound (zeroAllInOk_dealCommunity h)
  · exact zeroAllInOk_startBettingRound (zeroAllInOk_dealCommunity h)
  · exact zeroAllInOk_startBettingRound (zeroAllInOk_dealCommunity h)
  · exact h

theorem zeroAllInOk_dealThroughReveal {room : Room}
    (h : ZeroAllInOk room) : ZeroAllInOk (dealThroughReveal room) := by
  unfold dealThroughReveal
  have h1 : ∀ r : Room, ZeroAllInOk r → ∀ st : Stage, ∀ n : Nat, ∀ c : Prop,
      [inst : Decidable c] →
      ZeroAllInOk (if c then { (dealCommunity r n) with stage := st } else r) := by
    intro r hr st n c inst
    split
    · exact zeroAllInOk_dealCommunity hr
    · exact hr
  exact h1 _ (h1 _ (h1 _ h _ _ _) _ _ _) _ _ _

theorem zeroAllInOk_moveToNextActor {room : Room}
    (h : ZeroAllInOk room) : ZeroAllInOk (moveToNextActor room) := by
  unfold moveToNextActor
  split
  · exact h
  · exact h

theorem zeroAllInOk_postPhase {room : Room}
    (h : ZeroAllInOk room) : ZeroAllInOk (postPhase room) := by
  unfold postPhase
  split
  · exact zeroAllInOk_awardPotToSync h
  · split
    · dsimp only
      split
      · exact zeroAllInOk_advanceStageSync h
      · exact zeroAllInOk_dealThroughReveal h
    · exact zeroAllInOk_moveToNextActor h

theorem zeroAllInOk_handlePlayerAction {room : Room} {pid action : String}
    {amount : Int} (h : ZeroAllInOk room) :
    ZeroAllInOk (handlePlayerAction room pid action amount) := by
  unfold handlePlayerAction
  split
  · exact h
  · split
    · exact h
    · split
      · exact h
      · split
        · exact h
        · split
          · exact h
          · split
            · exact h
            · dsimp only
              split
              · exact zeroAllInOk_postPhase (zeroAllInOk_applyFold h)
              · split
                · split
                  · exact h
                  · exact zeroAllInOk_postPhase (zeroAllInOk_markActed h)
                · split
                  · split
                    · exact zeroAllInOk_postPhase (zeroAllInOk_markActed h)
                    · exact zeroAllInOk_postPhase
                        (zeroAllInOk_markActed (zeroAllInOk_commitChips h))
                  · split
                    · split
                      · exact h
                      · rename_i heq
                        exact zeroAllInOk_postPhase (zeroAllInOk_applyAllIn heq h)
                    · split
                      · split
                        · exact h
                        · rename_i heq
                          exact zeroAllInOk_postPhase (zeroAllInOk_applyBetRaise heq h)
                      · exact h

theorem zeroAllInOk_resetForNewHand {room : Room} {deck : List String} :
    ZeroAllInOk (resetForNewHand room deck) := by
  intro q hq
  rcases List.mem_map.mp hq with ⟨p, _, rfl⟩
  intro hz
  left
  have hz' : p.stack = 0 := hz
  simp [hz']

theorem zeroAllInOk_postBlinds {room : Room} (h : ZeroAllInOk room) :
    ZeroAllInOk (postBlinds room).1 := by
  unfold postBlinds
  dsimp only
  split
  · exact h
  · split
    · exact h
    · split
      · exact h
      · split
        · intro q hq
          rcases List.mem_map.mp hq with ⟨p, hp, rfl⟩
          have hp' := zeroAllInOk_commitChips
            (zeroAllInOk_commitChips h) p hp
          refine hp'.congr ?_ ?_ ?_ <;> (split <;> rfl)
        · exact h

theorem zeroAllInOk_dealHoleCards {room : Room} (h : ZeroAllInOk room) :
    ZeroAllInOk (dealHoleCards room) := by
  unfold dealHoleCards
  dsimp only
  split
  · exact h
  · exact zeroAllInOk_dealLoop h

theorem zeroAllInOk_beginHandGo {room : Room} {deck : List String} :
    ZeroAllInOk (beginHandGo room deck) := by
  intro q hq
  simp only [beginHandGo] at hq
  exact zeroAllInOk_dealHoleCards
    (zeroAllInOk_postBlinds zeroAllInOk_resetForNewHand) q hq

theorem zeroAllInOk_beginHand {room : Room} {deck : List String}
    (h : ZeroAllInOk room) : ZeroAllInOk (beginHand room deck) := by
  unfold beginHand
  split
  · exact h
  · exact zeroAllInOk_beginHandGo

theorem zeroAllInOk_foldl {α : Type} {body : Room → α → Room} {l : List α}
    {room : Room} (hbody : ∀ r x, ZeroAllInOk r → ZeroAllInOk (body r x))
    (h : ZeroAllInOk room) : ZeroAllInOk (l.foldl body room) := by
  induction l generalizing room with
  | nil => exact h
  | cons x xs ih => exact ih (hbody _ _ h)

theorem zeroAllInOk_resolveShowdown {room : Room}
    {winnersOf : List String → List String} (h : ZeroAllInOk room) :
    ZeroAllInOk (resolveShowdown winnersOf room) := by
  unfold resolveShowdown
  refine zeroAllInOk_foldl ?_ h
  intro r pot hr
  dsimp only
  split
  · exact hr
  · split
    · exact hr
    · split
      · exact zeroAllInOk_payTo
          (zeroAllInOk_foldl (fun r' wid hr' => zeroAllInOk_payTo hr') hr)
      · exact zeroAllInOk_foldl (fun r' wid hr' => zeroAllInOk_payTo hr') hr

theorem zeroAllInOk_revealPipeline {room : Room}
    {winnersOf : List String → List String} (h : ZeroAllInOk room) :
    ZeroAllInOk (revealPipeline winnersOf room) :=
  zeroAllInOk_resolveShowdown h

theorem zeroAllInOk_nextHandReset {room : Room} {deck : List String} :
    ZeroAllInOk (nextHandReset room deck) := by
  unfold nextHandReset
  have hreset : ZeroAllInOk
      { room with
        state := RState.lobby
        stage := Stage.preflop
        players := room.players.map (fun pl =>
          { pl with
            folded := decide (pl.stack ≤ 0)
            allIn := false
            betThisRound := 0
            committed := 0
            hole := []
            hasActed := false }) } := by
    intro q hq
    rcases List.mem_map.mp hq with ⟨p, _, rfl⟩
    intro hz
    left
    have hz' : p.stack = 0 := hz
    simp [hz']
  simp only [nextHandReset]
  split
  · exact zeroAllInOk_beginHand hreset
  · exact hreset

theorem zeroAllInOk_joinRoom {room : Room} {pid : String}
    (h : ZeroAllInOk room) : ZeroAllInOk (joinRoom room pid) := by
  unfold joinRoom
  split
  · exact h
  · split
    · exact h
    · split
      · exact h
      · intro q hq
        rcases List.mem_append.mp hq with hq' | hq'
        · exact h q hq'
        · rcases List.mem_singleton.mp hq' with rfl
          intro hz
          exact absurd hz (by simp [newPlayer, STARTING_STACK])

theorem zeroAllInOk_startGameOp {room : Room} {deck : List String}
    (h : ZeroAllInOk room) : ZeroAllInOk (startGameOp room deck) := by
  unfold startGameOp
  split
  · exact zeroAllInOk_beginHand h
  · exact h

theorem zeroAllInOk_step {room room' : Room} (hstep : Step room room')
    (h : ZeroAllInOk room) : ZeroAllInOk room' := by
  cases hstep with
  | join => exact zeroAllInOk_joinRoom h
  | blinds => exact h
  | start => exact zeroAllInOk_startGameOp h
  | act => exact zeroAllInOk_handlePlayerAction h
  | reveal => exact zeroAllInOk_revealPipeline h
  | nextHand => exact zeroAllInOk_nextHandReset

/-- C8, amended: in every reachable room state, a player whose stack is 0 is
folded or all-in.  (The claim's `allIn == true` alone fails: the per-hand
reset clears `allIn` and instead marks busted players folded, see the
counterexample.) -/
theorem C8_stack_zero_flagged {hostId : String} {room : Room}
    (h : Reachable hostId room) :
    ∀ p ∈ room.players, p.stack = 0 → p.folded = true ∨ p.allIn = true := by
  have hinv : ZeroAllInOk room := by
    induction h with
    | refl =>
      intro p hp
      rcases List.mem_singleton.mp hp with rfl
      intro hz
      exact absurd hz (by simp [newPlayer, STARTING_STACK])
    | tail _ hstep ih => exact zeroAllInOk_step hstep ih
  exact hinv

/-- C8 witness: the amended invariant applied to the busted player `B` of
the reachable all-in scenario. -/
theorem C8_stack_zero_flagged_witness :
    bustedPlayerB.stack = 0 ∧
    (bustedPlayerB.folded = true ∨ bustedPlayerB.allIn = true) :=
  ⟨by decide,
    C8_stack_zero_flagged reach_bustedLobbyRoom bustedPlayerB (by decide) (by decide)⟩

/-- C7, counterexample: for committed amounts `[100, 100, 300]` the claimed
pot amounts `[300, 400]` (totalling 700) are wrong — `buildSidePots` caps
the second slice at `(300 - 100) * 1 = 200`, and the total is the 500
actually committed. -/
theorem C7_counterexample :
    (buildSidePots sidePotExample).map (·.amount) ≠ [300, 400] ∧
    ((buildSidePots sidePotExample).map (·.amount)).sum ≠ 700 := by
  decide

/-- C7, amended: for committed amounts `[100, 100, 300]` (all three players
non-folded) `buildSidePots` returns exactly two pots: 300 with all three
players eligible and 200 with only the 300-level player eligible, the
amounts totalling 500.  (With commitments `[300, 100, 300]` — the situation
the spec's prose describes, a short all-in at 100 covered by two players at
300 — the pots are 300 for all three and 400 for the two 300-level
players, totalling 700.) -/
theorem C7_sidePots_example :
    buildSidePots sidePotExample =
      [{ amount := 300, eligible := ["a", "b", "c"] },
       { amount := 200, eligible := ["c"] }] ∧
    ((buildSidePots sidePotExample).map (·.amount)).sum = 500 ∧
    buildSidePots sidePotExample' =
      [{ amount := 300, eligible := ["a", "b", "c"] },
       { amount := 400, eligible := ["a", "c"] }] ∧
    ((buildSidePots sidePotExample').map (·.amount)).sum = 700 := by
  decide

/-- C1: chip conservation fails after a lone-survivor award.  In the
heads-up scenario (stacks 2000/2000, blinds 10/20) the sum of stacks plus
pot is 4000 during the hand, and still 4000 right after `awardPotTo` pays
the survivor — but `awardPotTo` also schedules `resolveShowdown`, which pays
the survivor the committed blinds a second time, ending with stacks summing
to 4030 ≠ 4000. -/
theorem C1_chip_conservation_fails :
    stackSum twoSeatRoom + twoSeatRoom.pot = 4000 ∧
    stackSum foldActionRoom = 4000 ∧
    foldActionRoom.state = RState.reveal ∧
    stackSum foldPipelineRoom = 4030 := by
  decide

/-- C5: after `B` folds, the survivor `A`'s stack does grow by exactly the
pot (1980 + 30 = 2010) with the award itself evaluating no cards — but the
pipeline `awardPotTo` schedules then feeds the survivor's hole cards to the
hand evaluator (`showdownEvaluatedIds` is exactly the survivor) and pays the
survivor a further 30, so the hand as a whole both evaluates cards and pays
more than the pot. -/
theorem C5_lone_survivor_fails :
    twoSeatRoom.pot = 30 ∧
    (findById twoSeatRoom "A").map (·.stack) = some 1980 ∧
    (findById foldActionRoom "A").map (·.stack) = some 2010 ∧
    showdownEvaluatedIds foldActionRoom = ["A"] ∧
    (findById foldPipelineRoom "A").map (·.stack) = some 2040 := by
  decide

/-- C3: `shouldEndBettingRound` returns true exactly when no player is both
non-folded and non-all-in, or every such player has acted and matches the
table bet. -/
theorem C3_shouldEndBettingRound_iff (room : Room) :
    shouldEndBettingRound room = true ↔
      ((¬ ∃ p ∈ room.players, p.folded = false ∧ p.allIn = false) ∨
        ∀ p ∈ room.players, p.folded = false → p.allIn = false →
          p.hasActed = true ∧ p.betThisRound = room.currentBet) := by
  unfold shouldEndBettingRound
  dsimp only
  split
  · rename_i hlen
    simp only [beq_iff_eq, List.length_eq_zero] at hlen
    constructor
    · intro _
      left
      rintro ⟨p, hp, hf, ha⟩
      have hmem : p ∈ room.players.filter (fun q => !q.folded && !q.allIn) := by
        rw [List.mem_filter]
        exact ⟨hp, by rw [hf, ha]; rfl⟩
      rw [hlen] at hmem
      cases hmem
    · intro _
      rfl
  · rename_i hlen
    simp only [beq_iff_eq, List.length_eq_zero] at hlen
    have hne : room.players.filter (fun q => !q.folded && !q.allIn) ≠ [] := hlen
    constructor
    · intro h
      right
      intro p hp hf ha
      rw [Bool.and_eq_true] at h
      obtain ⟨h1, h2⟩ := h
      rw [List.all_eq_true] at h1 h2
      have hmem : p ∈ room.players.filter (fun q => !q.folded && !q.allIn) := by
        rw [List.mem_filter]
        exact ⟨hp, by rw [hf, ha]; rfl⟩
      refine ⟨h2 p hmem, ?_⟩
      have := h1 p hmem
      rwa [beq_iff_eq] at this
    · intro h
      rcases h with h | h
      · exfalso
        obtain ⟨q, hq⟩ := List.exists_mem_of_ne_nil _ hne
        rw [List.mem_filter, Bool.and_eq_true, Bool.not_eq_true',
          Bool.not_eq_true'] at hq
        exact h ⟨q, hq.1, hq.2.1, hq.2.2⟩
      · rw [Bool.and_eq_true]
        constructor <;> rw [List.all_eq_true] <;> intro q hq <;>
          rw [List.mem_filter, Bool.and_eq_true, Bool.not_eq_true',
            Bool.not_eq_true'] at hq
        · rw [beq_iff_eq]
          exact (h q hq.1 hq.2.1 hq.2.2).2
        · exact (h q hq.1 hq.2.1 hq.2.2).1

/-! ## Side-pot correctness (C2) -/

theorem sum_map_add_split {α : Type} (f g : α → Nat) (l : List α) :
    (l.map (fun x => f x + g x)).sum = (l.map f).sum + (l.map g).sum := by
  induction l with
  | nil => rfl
  | cons x xs ih =>
    simp only [List.map_cons, List.sum_cons, ih]
    omega

theorem mul_count_eq_sum_map {α : Type} (k : Nat) (pred : α → Bool) (l : List α) :
    k * (l.filter pred).length = (l.map (fun x => if pred x then k else 0)).sum := by
  induction l with
  | nil => rfl
  | cons x xs ih =>
    rw [List.filter_cons, List.map_cons, List.sum_cons]
    by_cases hx : pred x = true
    · rw [if_pos hx, if_pos hx, List.length_cons, Nat.mul_succ, ih]
      omega
    · rw [if_neg hx, if_neg hx, ih]
      omega

/-- The total of the pot amounts decomposes into per-player shares. -/
theorem potsFrom_amount_sum (contrib : List Player) (levels : List Nat) :
    ∀ prev : Nat,
    ((potsFrom contrib prev levels).map (·.amount)).sum =
      (contrib.map (fun p => playerShare prev levels p.committed)).sum := by
  induction levels with
  | nil => intro prev; simp [potsFrom, playerShare]
  | cons L rest ih =>
    intro prev
    simp only [potsFrom, List.map_cons, List.sum_cons, playerShare]
    rw [mul_count_eq_sum_map, ih L, ← sum_map_add_split]
    apply congrArg
    apply List.map_congr_left
    intro p _
    by_cases h : L ≤ p.committed <;> simp [h]

theorem playerShare_eq_zero {c : Nat} (levels : List Nat)
    (h : ∀ x ∈ levels, c < x) : ∀ prev, playerShare prev levels c = 0 := by
  induction levels with
  | nil => intro _; rfl
  | cons L rest ih =>
    intro prev
    have hL := h L (List.mem_cons_self _ _)
    simp only [playerShare]
    rw [if_neg (by omega), ih (fun x hx => h x (List.mem_cons_of_mem _ hx))]

/-- For a committed total that is itself one of the levels, the per-player
share telescopes to the whole commitment above `prev`. -/
theorem playerShare_mem_eq (levels : List Nat) :
    ∀ prev c, (∀ x ∈ levels, prev ≤ x) → List.Sorted (· < ·) levels →
      c ∈ levels → playerShare prev levels c = c - prev := by
  induction levels with
  | nil => intro _ _ _ _ hc; cases hc
  | cons L rest ih =>
    intro prev c hub hs hc
    have hpl : prev ≤ L := hub L (List.mem_cons_self _ _)
    have hrest_gt : ∀ x ∈ rest, L < x := fun x hx => (List.sorted_cons.mp hs).1 x hx
    rcases List.mem_cons.mp hc with rfl | hcr
    · simp only [playerShare]
      rw [if_pos (le_refl _), playerShare_eq_zero rest hrest_gt]
      omega
    · have hLc : L < c := hrest_gt c hcr
      simp only [playerShare]
      rw [if_pos (by omega),
        ih L c (fun x hx => le_of_lt (hrest_gt x hx)) (List.sorted_cons.mp hs).2 hcr]
      omega

/-- The levels are exactly the distinct positive committed totals. -/
theorem levelsOf_mem_iff (ps : List Player) (L : Nat) :
    L ∈ levelsOf ps ↔ 0 < L ∧ ∃ p ∈ ps, p.committed = L := by
  unfold levelsOf
  rw [(List.perm_insertionSort _ _).mem_iff, List.mem_dedup, List.mem_map]
  constructor
  · rintro ⟨p, hp, rfl⟩
    rw [List.mem_filter] at hp
    exact ⟨by simpa using hp.2, p, hp.1, rfl⟩
  · rintro ⟨hL, p, hp, rfl⟩
    exact ⟨p, List.mem_filter.mpr ⟨hp, by simpa using hL⟩, rfl⟩

/-- The levels are strictly ascending. -/
theorem levelsOf_sorted (ps : List Player) :
    List.Sorted (· < ·) (levelsOf ps) := by
  have h1 : List.Sorted (· ≤ ·) (levelsOf ps) := List.sorted_insertionSort _ _
  have h2 : (levelsOf ps).Nodup :=
    (List.perm_insertionSort _ _).nodup_iff.mpr (List.nodup_dedup _)
  exact h1.lt_of_le h2

/-- `potsFrom` is the indexed construction over the level list: the pot at
index `i` uses level `i` and its predecessor (`prev` for the first). -/
theorem potsFrom_eq_mapRange (contrib : List Player) (levels : List Nat) :
    ∀ prev : Nat,
    potsFrom contrib prev levels = (List.range levels.length).map (fun i =>
      let L := levels.getD i 0
      let P := if i = 0 then prev else levels.getD (i - 1) 0
      let inThis := contrib.filter (fun p => decide (L ≤ p.committed))
      { amount := (L - P) * inThis.length
        eligible := (inThis.filter (fun p => !p.folded)).map (·.id) }) := by
  induction levels with
  | nil => intro prev; rfl
  | cons L rest ih =>
    intro prev
    rw [potsFrom, List.length_cons, List.range_succ_eq_map, List.map_cons,
      List.map_map, ih L]
    apply congrArg
    apply List.map_congr_left
    intro i _
    cases i with
    | zero => rfl
    | succ j => rfl

theorem sum_committed_filter (ps : List Player) :
    ((ps.filter (fun p => decide (0 < p.committed))).map (·.committed)).sum =
      (ps.map (·.committed)).sum := by
  induction ps with
  | nil => rfl
  | cons p ps ih =>
    rw [List.filter_cons]
    by_cases hp : 0 < p.committed
    · rw [if_pos (by simpa using hp)]
      simp only [List.map_cons, List.sum_cons, ih]
    · rw [if_neg (by simpa using hp)]
      simp only [List.map_cons, List.sum_cons, ih]
      have hz : p.committed = 0 := by omega
      omega

/-- C2: `buildSidePots` is exactly the specified construction: the levels
are the distinct positive committed amounts sorted strictly ascending, it
returns one pot per level in that order with amount
`(L - P) * count(committed ≥ L)` and the non-folded of those players
eligible (`specPots`), and the pot amounts total all committed chips. -/
theorem C2_buildSidePots_correct (ps : List Player) :
    List.Sorted (· < ·) (levelsOf ps) ∧
    (∀ L, L ∈ levelsOf ps ↔ 0 < L ∧ ∃ p ∈ ps, p.committed = L) ∧
    buildSidePots ps = specPots ps ∧
    ((buildSidePots ps).map (·.amount)).sum = (ps.map (·.committed)).sum := by
  refine ⟨levelsOf_sorted ps, fun L => levelsOf_mem_iff ps L, ?_, ?_⟩
  · unfold buildSidePots specPots
    dsimp only
    by_cases hc : (ps.filter (fun p => decide (0 < p.committed))).isEmpty
    · rw [if_pos hc]
      rw [List.isEmpty_iff] at hc
      have hlev : levelsOf ps = [] := by
        unfold levelsOf
        rw [hc]
        rfl
      rw [hlev]
      rfl
    · rw [if_neg hc, potsFrom_eq_mapRange]
      apply List.map_congr_left
      intro i hi
      rw [List.mem_range] at hi
      have hLmem : (levelsOf ps).getD i 0 ∈ levelsOf ps := by
        rw [List.getD_eq_getElem _ _ hi]
        exact List.getElem_mem hi
      have hLpos : 0 < (levelsOf ps).getD i 0 :=
        ((levelsOf_mem_iff ps _).mp hLmem).1
      have hfilter : (ps.filter (fun p => decide (0 < p.committed))).filter
          (fun p => decide ((levelsOf ps).getD i 0 ≤ p.committed)) =
          ps.filter (fun p => decide ((levelsOf ps).getD i 0 ≤ p.committed)) := by
        rw [List.filter_filter]
        apply List.filter_congr
        intro p _
        have hLpos' : 0 < (levelsOf ps)[i]?.getD 0 := by
          rw [← List.getD_eq_getElem?_getD]
          exact hLpos
        by_cases hcL : (levelsOf ps)[i]?.getD 0 ≤ p.committed
        · have hp0 : 0 < p.committed := by omega
          simp [hcL, hp0]
        · simp [hcL]
      dsimp only
      rw [hfilter]
  · unfold buildSidePots
    dsimp only
    by_cases hc : (ps.filter (fun p => decide (0 < p.committed))).isEmpty
    · rw [if_pos hc]
      rw [List.isEmpty_iff] at hc
      symm
      apply List.sum_eq_zero
      intro x hx
      rcases List.mem_map.mp hx with ⟨p, hp, rfl⟩
      by_contra hnz
      have hmem : p ∈ ps.filter (fun p => decide (0 < p.committed)) :=
        List.mem_filter.mpr ⟨hp, by simpa using Nat.pos_of_ne_zero hnz⟩
      rw [hc] at hmem
      cases hmem
    · rw [if_neg hc, potsFrom_amount_sum]
      have hstep : ∀ p ∈ ps.filter (fun p => decide (0 < p.committed)),
          playerShare 0 (levelsOf ps) p.committed = p.committed := by
        intro p hp
        rw [List.mem_filter] at hp
        have hmem : p.committed ∈ levelsOf ps :=
          (levelsOf_mem_iff ps _).mpr ⟨by simpa using hp.2, p, hp.1, rfl⟩
        have := playerShare_mem_eq (levelsOf ps) 0 p.committed
          (fun x _ => Nat.zero_le x) (levelsOf_sorted ps) hmem
        simpa using this
      rw [List.map_congr_left hstep]
      exact sum_committed_filter ps

/-- C2 witness: the side-pot construction evaluated on the worked example. -/
theorem C2_buildSidePots_witness :
    buildSidePots sidePotExample = specPots sidePotExample ∧
    ((buildSidePots sidePotExample).map (·.amount)).sum =
      (sidePotExample.map (·.committed)).sum :=
  ⟨(C2_buildSidePots_correct sidePotExample).2.2.1,
    (C2_buildSidePots_correct sidePotExample).2.2.2⟩

/-! ## Lookup lemmas for the action effects -/

/-- Updating the first entry with a given id commutes with looking it up,
when the update preserves ids. -/
theorem find?_updateFirstById_self (ps : List Player) (pid : String)
    (f : Player → Player) (hf : ∀ q, (f q).id = q.id) :
    (updateFirstById ps pid f).find? (fun q => q.id == pid) =
      (ps.find? (fun q => q.id == pid)).map f := by
  induction ps with
  | nil => rfl
  | cons p ps ih =>
    simp only [updateFirstById]
    by_cases hp : (p.id == pid) = true
    · rw [if_pos hp]
      simp [List.find?_cons, hf, hp]
    · have hp' : (p.id == pid) = false := by simpa using hp
      rw [if_neg hp]
      simp only [List.find?_cons, hf, hp']
      exact ih

/-- Updating the entry with one id does not disturb lookups of another id. -/
theorem find?_updateFirstById_ne (ps : List Player) (pid qid : String)
    (f : Player → Player) (hf : ∀ q, (f q).id = q.id) (hne : qid ≠ pid) :
    (updateFirstById ps pid f).find? (fun q => q.id == qid) =
      ps.find? (fun q => q.id == qid) := by
  induction ps with
  | nil => rfl
  | cons p ps ih =>
    simp only [updateFirstById]
    by_cases hp : (p.id == pid) = true
    · rw [if_pos hp]
      rw [beq_iff_eq] at hp
      have hq : ((f p).id == qid) = false := by
        rw [hf, hp]
        exact beq_eq_false_iff_ne.mpr (fun h => hne h.symm)
      have hq' : (p.id == qid) = false := by
        rw [hp]
        exact beq_eq_false_iff_ne.mpr (fun h => hne h.symm)
      simp only [List.find?_cons, hq, hq']
    · rw [if_neg hp]
      by_cases hpq : (p.id == qid) = true
      · simp only [List.find?_cons, hpq]
      · have hpq' : (p.id == qid) = false := by simpa using hpq
        simp only [List.find?_cons, hpq']
        exact ih

/-- Mapping an id-preserving function commutes with id lookup. -/
theorem find?_map_of_id (g : Player → Player) (hg : ∀ q, (g q).id = q.id)
    (ps : List Player) (qid : String) :
    (ps.map g).find? (fun q => q.id == qid) =
      (ps.find? (fun q => q.id == qid)).map g := by
  induction ps with
  | nil => rfl
  | cons p ps ih =>
    rw [List.map_cons]
    by_cases hp : (p.id == qid) = true
    · simp [List.find?_cons, hg, hp]
    · have hp' : (p.id == qid) = false := by simpa using hp
      simp only [List.find?_cons, hg, hp']
      exact ih

/-- With pairwise-distinct ids, looking up a member's id finds exactly that
member. -/
theorem find?_of_mem_nodup {ps : List Player}
    (hid : (ps.map (·.id)).Nodup) {q : Player} (hq : q ∈ ps) :
    ps.find? (fun o => o.id == q.id) = some q := by
  induction ps with
  | nil => cases hq
  | cons p ps ih =>
    rcases List.mem_cons.mp hq with rfl | hq'
    · exact List.find?_cons_of_pos _ (by simp)
    · rw [List.map_cons, List.nodup_cons] at hid
      have hpq : (p.id == q.id) = false := by
        rw [beq_eq_false_iff_ne]
        intro hc
        exact hid.1 (by rw [hc]; exact List.mem_map.mpr ⟨q, hq', rfl⟩)
      simp only [List.find?_cons, hpq]
      exact ih hid.2 hq'

/-- C6: an action submitted outside the `hand` state, out of turn, by a
folded or all-in player, or a check while under the table bet, leaves the
room (every player field and every room field) unchanged and raises no
error (the handler is total). -/
theorem C6_illegal_action_noop (room : Room) (pid action : String)
    (amount : Int) (p : Player)
    (hp : room.players.find? (fun q => q.id == pid) = some p)
    (h : room.state ≠ RState.hand ∨ room.currentSeat ≠ some p.seat ∨
      p.folded = true ∨ p.allIn = true ∨
      (lowerString action = "check" ∧ p.betThisRound < room.currentBet)) :
    handlePlayerAction room pid action amount = room := by
  unfold handlePlayerAction
  rw [hp]
  dsimp only
  rcases h with h | h | h | h | ⟨hact, hbet⟩
  · rw [if_pos h]
  · cases hcs : room.currentSeat with
    | none => simp
    | some cs =>
      have hne : p.seat ≠ cs := fun hec => h (by rw [hcs, hec])
      simp [hne]
  · cases room.currentSeat with
    | none => simp
    | some cs => simp [h]
  · cases room.currentSeat with
    | none => simp
    | some cs => simp [h]
  · cases room.currentSeat with
    | none => simp
    | some cs => simp [hact, Nat.sub_ne_zero_of_lt hbet]

/-! ## Card conservation (C9) -/

theorem holesSum_map_congr {f : Player → Player}
    (hf : ∀ q, (f q).hole = q.hole) (ps : List Player) :
    holesSum (ps.map f) = holesSum ps := by
  induction ps with
  | nil => rfl
  | cons p ps ih =>
    simp only [holesSum, List.map_cons, List.sum_cons] at *
    rw [hf, ih]

theorem holesSum_updateFirstById_congr {f : Player → Player}
    (hf : ∀ q, (f q).hole = q.hole) (ps : List Player) (pid : String) :
    holesSum (updateFirstById ps pid f) = holesSum ps := by
  induction ps with
  | nil => rfl
  | cons p ps ih =>
    simp only [updateFirstById]
    split
    · simp only [holesSum, List.map_cons, List.sum_cons]
      rw [hf]
    · simp only [holesSum, List.map_cons, List.sum_cons] at *
      rw [ih]

theorem holesSum_append (ps qs : List Player) :
    holesSum (ps ++ qs) = holesSum ps + holesSum qs := by
  simp [holesSum, List.map_append]

/-- Popping the top of the deck splits off its last card. -/
theorem popLast_eq {l : List String} {c : String} (h : l.getLast? = some c) :
    l.dropLast ++ [c] = l := by
  have hne : l ≠ [] := by
    intro hc
    rw [hc] at h
    cases h
  rw [List.getLast?_eq_getLast l hne] at h
  injection h with h'
  rw [← h']
  exact List.dropLast_concat_getLast hne

theorem popLast_multiset {l : List String} {c : String}
    (h : l.getLast? = some c) :
    (l : Multiset String) = (l.dropLast : Multiset String) + {c} := by
  conv_lhs => rw [← popLast_eq h]
  rw [← Multiset.coe_add]
  rfl

/-- Pushing a card onto the hole of the (found) player at a seat adds that
card to the pooled hole cards. -/
theorem holesSum_updateFirstBySeat_push (ps : List Player) (s : Nat)
    (c : String) {p : Player} (hfind : ps.find? (fun q => q.seat == s) = some p) :
    holesSum (updateFirstBySeat ps s (fun q => { q with hole := q.hole ++ [c] })) =
      holesSum ps + {c} := by
  induction ps with
  | nil => cases hfind
  | cons p' ps ih =>
    simp only [updateFirstBySeat]
    by_cases hs : (p'.seat == s) = true
    · rw [if_pos hs]
      simp only [holesSum, List.map_cons, List.sum_cons]
      rw [← Multiset.coe_add]
      show ((p'.hole ++ [c] : List String) : Multiset String) + _ = _
      rw [← Multiset.coe_add]
      change ((p'.hole : Multiset String) + ([c] : List String)) + _ = _
      rw [add_right_comm]
      rfl
    · rw [if_neg hs]
      rw [List.find?_cons_of_neg _ (by simpa using hs)] at hfind
      simp only [holesSum, List.map_cons, List.sum_cons] at *
      rw [ih hfind, add_assoc]

theorem cardBag_set_currentSeat (r : Room) (cs : Option Nat) :
    cardBag { r with currentSeat := cs } = cardBag r := rfl

/-- `cardBag` only looks at the deck, the hole cards and the board. -/
theorem cardBag_congr {r r' : Room} (hdeck : r'.deck = r.deck)
    (hcomm : r'.community = r.community)
    (hhole : holesSum r'.players = holesSum r.players) :
    cardBag r' = cardBag r := by
  unfold cardBag
  rw [hdeck, hcomm, hhole]

theorem commitChips_deck (room : Room) (pid : String) (w : Nat) :
    (commitChips room pid w).deck = room.deck := by
  unfold commitChips
  split <;> rfl

theorem commitChips_community (room : Room) (pid : String) (w : Nat) :
    (commitChips room pid w).community = room.community := by
  unfold commitChips
  split <;> rfl

theorem holesSum_commitChips (room : Room) (pid : String) (w : Nat) :
    holesSum (commitChips room pid w).players = holesSum room.players := by
  unfold commitChips
  split
  · rfl
  · exact holesSum_updateFirstById_congr (by intro q; rfl) _ _

theorem cardBag_commitChips (room : Room) (pid : String) (w : Nat) :
    cardBag (commitChips room pid w) = cardBag room :=
  cardBag_congr (commitChips_deck _ _ _) (commitChips_community _ _ _)
    (holesSum_commitChips _ _ _)

theorem cardBag_markActed (room : Room) (pid : String) :
    cardBag (markActed room pid) = cardBag room :=
  cardBag_congr rfl rfl (holesSum_updateFirstById_congr (by intro q; rfl) _ _)

theorem cardBag_applyFold (room : Room) (pid : String) :
    cardBag (applyFold room pid) = cardBag room :=
  cardBag_congr rfl rfl (holesSum_updateFirstById_congr (by intro q; rfl) _ _)

theorem cardBag_payTo (room : Room) (pid : String) (amt : Nat) :
    cardBag (payTo room pid amt) = cardBag room :=
  cardBag_congr rfl rfl (holesSum_updateFirstById_congr (by intro q; rfl) _ _)

theorem cardBag_awardPotToSync (room : Room) (pid : String) :
    cardBag (awardPotToSync room pid) = cardBag room :=
  cardBag_congr rfl rfl (holesSum_updateFirstById_congr (by intro q; rfl) _ _)

theorem cardBag_applyRaiseUpdates (room : Room) (pid : String)
    (seat pb nt om : Nat) :
    cardBag (applyRaiseUpdates room pid seat pb nt om) = cardBag room := by
  unfold applyRaiseUpdates
  split
  · exact cardBag_congr rfl rfl
      (holesSum_map_congr (by intro q; split <;> first | rfl | (split <;> rfl)) _)
  · rfl

theorem cardBag_moveToNextActor (room : Room) :
    cardBag (moveToNextActor room) = cardBag room := by
  unfold moveToNextActor
  split <;> rfl

theorem cardBag_startBettingRound (room : Room) :
    cardBag (startBettingRound room) = cardBag room := by
  unfold startBettingRound
  dsimp only
  exact cardBag_congr rfl rfl
    (holesSum_map_congr (by intro q; split <;> rfl) _)

theorem cardBag_foldl {α : Type} {body : Room → α → Room} {l : List α}
    {room : Room} (hbody : ∀ r x, cardBag (body r x) = cardBag r) :
    cardBag (l.foldl body room) = cardBag room := by
  induction l generalizing room with
  | nil => rfl
  | cons x xs ih => rw [List.foldl_cons, ih, hbody]

theorem cardBag_resolveShowdown (room : Room)
    (winnersOf : List String → List String) :
    cardBag (resolveShowdown winnersOf room) = cardBag room := by
  unfold resolveShowdown
  refine cardBag_foldl ?_
  intro r pot
  dsimp only
  split
  · rfl
  · split
    · rfl
    · split
      · rw [cardBag_payTo, cardBag_foldl]
        intro r' wid
        rw [cardBag_payTo]
      · rw [cardBag_foldl]
        intro r' wid
        rw [cardBag_payTo]

theorem cardBag_revealPipeline (room : Room)
    (winnersOf : List String → List String) :
    cardBag (revealPipeline winnersOf room) = cardBag room := by
  show cardBag { resolveShowdown winnersOf room with
    state := RState.showdown, currentSeat := none } = cardBag room
  rw [show cardBag { resolveShowdown winnersOf room with
      state := RState.showdown, currentSeat := none } =
    cardBag (resolveShowdown winnersOf room) from rfl]
  exact cardBag_resolveShowdown room winnersOf

theorem cardBag_dealOneTo (room : Room) (s : Nat) :
    cardBag (dealOneTo room s) = cardBag room := by
  unfold dealOneTo
  split
  · rfl
  · rename_i p hfind
    split
    · rfl
    · rename_i c hlast
      unfold cardBag
      dsimp only
      rw [holesSum_updateFirstBySeat_push _ _ _ hfind,
        popLast_multiset hlast]
      have h : ∀ a b d : Multiset String,
          (a + ({c} : Multiset String)) + b + d = a + (b + {c}) + d := by
        intro a b d
        rw [add_right_comm a _ b, add_assoc a b _]
      exact (h _ _ _).symm

theorem cardBag_dealLoop (room : Room) (seat? : Option Nat) (n : Nat) :
    cardBag (dealLoop room seat? n) = cardBag room := by
  induction n generalizing room seat? with
  | zero => cases seat? <;> rfl
  | succ n ih =>
    cases seat? with
    | none => rfl
    | some s =>
      show cardBag (dealLoop (dealOneTo room s) _ n) = _
      rw [ih, cardBag_dealOneTo]

theorem cardBag_dealHoleCards (room : Room) :
    cardBag (dealHoleCards room) = cardBag room := by
  unfold dealHoleCards
  dsimp only
  split
  · rfl
  · rw [cardBag_dealLoop]

theorem cardBag_dealCommunity (room : Room) (n : Nat) :
    cardBag (dealCommunity room n) = cardBag room := by
  induction n generalizing room with
  | zero => rfl
  | succ n ih =>
    show cardBag (dealCommunity _ n) = _
    rw [ih]
    split
    · rfl
    · rename_i c hlast
      unfold cardBag
      dsimp only
      rw [popLast_multiset hlast, ← Multiset.coe_add]
      change _ + _ + ((room.community : Multiset String) +
        ([c] : List String)) = _
      have h : ∀ a b d : Multiset String,
          (a + ({c} : Multiset String)) + b + d = a + b + (d + {c}) := by
        intro a b d
        rw [add_right_comm a _ b, add_assoc (a + b) _ _,
          add_comm ({c} : Multiset String) d]
      exact (h _ _ _).symm

theorem cardBag_postBlinds (room : Room) :
    cardBag (postBlinds room).1 = cardBag room := by
  unfold postBlinds
  dsimp only
  split
  · rfl
  · split
    · rfl
    · split
      · rfl
      · split
        · refine cardBag_congr ?_ ?_ ?_
          · rw [commitChips_deck, commitChips_deck]
          · rw [commitChips_community, commitChips_community]
          · refine Eq.trans (holesSum_map_congr ?_ _) ?_
            · intro q
              dsimp only
              split <;> rfl
            · rw [holesSum_commitChips, holesSum_commitChips]
        · rfl

theorem cardBag_resetForNewHand (room : Room) (deck : List String) :
    cardBag (resetForNewHand room deck) = (deck : Multiset String) := by
  unfold resetForNewHand cardBag
  dsimp only
  have h : holesSum (room.players.map (fun p =>
      { p with
        folded := decide (p.stack ≤ 0)
        allIn := false
        betThisRound := 0
        committed := 0
        hole := []
        hasActed := false })) = 0 := by
    induction room.players with
    | nil => rfl
    | cons p ps ih =>
      simp only [holesSum, List.map_cons, List.sum_cons] at *
      rw [ih]
      rfl
  rw [h]
  show (deck : Multiset String) + 0 + (([] : List String) : Multiset String) =
    (deck : Multiset String)
  simp

theorem cardBag_beginHandGo (room : Room) (deck : List String) :
    cardBag (beginHandGo room deck) = (deck : Multiset String) := by
  simp only [beginHandGo]
  rw [cardBag_set_currentSeat, cardBag_dealHoleCards, cardBag_postBlinds,
    cardBag_resetForNewHand]

theorem cardBag_set_state_currentSeat (r : Room) (st : RState) (cs : Option Nat) :
    cardBag { r with state := st, currentSeat := cs } = cardBag r := rfl

theorem cardBag_set_stage (r : Room) (st : Stage) :
    cardBag { r with stage := st } = cardBag r := rfl

theorem cardBag_stageDeal (r : Room) (st : Stage) (n : Nat) (c : Prop)
    [Decidable c] :
    cardBag (if c then { (dealCommunity r n) with stage := st } else r) =
      cardBag r := by
  split
  · rw [cardBag_set_stage, cardBag_dealCommunity]
  · rfl

theorem cardBag_dealThroughReveal (room : Room) :
    cardBag (dealThroughReveal room) = cardBag room := by
  unfold dealThroughReveal
  dsimp only
  rw [cardBag_set_state_currentSeat, cardBag_stageDeal, cardBag_stageDeal,
    cardBag_stageDeal]

theorem cardBag_advanceStageSync (room : Room) :
    cardBag (advanceStageSync room) = cardBag room := by
  unfold advanceStageSync
  split
  · rw [cardBag_startBettingRound, cardBag_set_stage, cardBag_dealCommunity]
  · rw [cardBag_startBettingRound, cardBag_set_stage, cardBag_dealCommunity]
  · rw [cardBag_startBettingRound, cardBag_set_stage, cardBag_dealCommunity]
  · rw [cardBag_set_state_currentSeat]

theorem cardBag_postPhase (room : Room) :
    cardBag (postPhase room) = cardBag room := by
  unfold postPhase
  split
  · rw [cardBag_awardPotToSync]
  · split
    · dsimp only
      split
      · rw [cardBag_advanceStageSync]
      · rw [cardBag_dealThroughReveal]
    · rw [cardBag_moveToNextActor]

theorem cardBag_applyBetRaise {room r : Room} {p : Player} {amount : Int}
    (heq : applyBetRaise room p amount = some r) :
    cardBag r = cardBag room := by
  unfold applyBetRaise at heq
  dsimp only at heq
  split at heq
  · exact absurd heq (by simp)
  · split at heq
    · exact absurd heq (by simp)
    · split at heq
      · exact absurd heq (by simp)
      · cases heq
        rw [cardBag_markActed, cardBag_applyRaiseUpdates, cardBag_commitChips]

theorem cardBag_applyAllIn {room r : Room} {p : Player}
    (heq : applyAllIn room p = some r) :
    cardBag r = cardBag room := by
  unfold applyAllIn at heq
  dsimp only at heq
  split at heq
  · exact absurd heq (by simp)
  · split at heq
    · exact absurd heq (by simp)
    · cases heq
      rw [cardBag_markActed, cardBag_applyRaiseUpdates, cardBag_commitChips]

theorem cardBag_handlePlayerAction (room : Room) (pid action : String)
    (amount : Int) :
    cardBag (handlePlayerAction room pid action amount) = cardBag room := by
  unfold handlePlayerAction
  split
  · rfl
  · split
    · rfl
    · split
      · rfl
      · split
        · rfl
        · split
          · rfl
          · split
            · rfl
            · dsimp only
              split
              · rw [cardBag_postPhase, cardBag_applyFold]
              · split
                · split
                  · rfl
                  · rw [cardBag_postPhase, cardBag_markActed]
                · split
                  · split
                    · rw [cardBag_postPhase, cardBag_markActed]
                    · rw [cardBag_postPhase, cardBag_markActed, cardBag_commitChips]
                  · split
                    · split
                      · rfl
                      · rename_i heq
                        rw [cardBag_postPhase, cardBag_applyAllIn heq]
                    · split
                      · split
                        · rfl
                        · rename_i heq
                          rw [cardBag_postPhase, cardBag_applyBetRaise heq]
                      · rfl

theorem cardBag_joinRoom (room : Room) (pid : String) :
    cardBag (joinRoom room pid) = cardBag room := by
  unfold joinRoom
  split
  · rfl
  · split
    · rfl
    · split
      · rfl
      · refine cardBag_congr rfl rfl ?_
        rw [holesSum_append]
        show holesSum room.players + holesSum [newPlayer pid _] = _
        simp [holesSum, newPlayer]

theorem joinRoom_state (room : Room) (pid : String) :
    (joinRoom room pid).state = room.state := by
  unfold joinRoom
  split
  · rfl
  · split
    · rfl
    · split <;> rfl

theorem handlePlayerAction_of_not_hand {room : Room} {pid action : String}
    {amount : Int} (h : room.state ≠ RState.hand) :
    handlePlayerAction room pid action amount = room := by
  unfold handlePlayerAction
  split
  · rfl
  · rw [if_pos h]

/-- A hand started with a full (permuted) deck satisfies the card
invariant. -/
theorem cardsOk_beginHand {room : Room} {deck : List String}
    (hdeck : deck.Perm standardDeck) : CardsOk (beginHand room deck) := by
  intro hst
  unfold beginHand at hst ⊢
  by_cases hc : (activeSeats room).length < 2
  · rw [if_pos hc] at hst
    exact absurd rfl hst
  · rw [if_neg hc] at hst ⊢
    rw [cardBag_beginHandGo]
    exact Multiset.coe_eq_coe.mpr hdeck

theorem cardsOk_nextHandReset {room : Room} {deck : List String}
    (hdeck : deck.Perm standardDeck) : CardsOk (nextHandReset room deck) := by
  intro hst
  simp only [nextHandReset] at hst ⊢
  split at hst
  · rename_i hc
    rw [if_pos hc]
    exact cardsOk_beginHand hdeck hst
  · exact absurd rfl hst

/-- Every room transition preserves the card invariant. -/
theorem cardsOk_step {room room' : Room} (hstep : Step room room')
    (h : CardsOk room) : CardsOk room' := by
  cases hstep with
  | join pid =>
    intro hst
    rw [cardBag_joinRoom]
    exact h (by rwa [joinRoom_state] at hst)
  | blinds sb bb => exact h
  | start deck hdeck =>
    intro hst
    unfold startGameOp at hst ⊢
    split at hst
    · rename_i hcond
      rw [if_pos hcond]
      exact cardsOk_beginHand hdeck hst
    · rename_i hcond
      rw [if_neg hcond]
      exact h hst
  | act pid action amount =>
    by_cases hhand : room.state = RState.hand
    · intro _
      rw [cardBag_handlePlayerAction]
      exact h (by rw [hhand]; exact fun hc => RState.noConfusion hc)
    · rw [handlePlayerAction_of_not_hand hhand]
      exact h
  | reveal winnersOf hwf hst' =>
    intro _
    rw [cardBag_revealPipeline]
    exact h (by rw [hst']; exact fun hc => RState.noConfusion hc)
  | nextHand deck hdeck hst' => exact cardsOk_nextHandReset hdeck

theorem holesSum_card (ps : List Player) :
    (holesSum ps).card = (ps.map (·.hole.length)).sum := by
  induction ps with
  | nil => rfl
  | cons p ps ih =>
    simp only [holesSum, List.map_cons, List.sum_cons] at *
    rw [Multiset.card_add, Multiset.coe_card, ih]

theorem cardBag_card (room : Room) :
    (cardBag room).card = room.deck.length +
      (room.players.map (·.hole.length)).sum + room.community.length := by
  unfold cardBag
  rw [Multiset.card_add, Multiset.card_add, Multiset.coe_card,
    Multiset.coe_card, holesSum_card]

theorem holesSum_eq_flatMap (ps : List Player) :
    holesSum ps = ((ps.flatMap (·.hole) : List String) : Multiset String) := by
  induction ps with
  | nil => rfl
  | cons p ps ih =>
    simp only [holesSum, List.map_cons, List.sum_cons, List.flatMap_cons] at *
    rw [ih, ← Multiset.coe_add]

theorem coe_flat_eq_cardBag (room : Room) :
    ((room.deck ++ room.players.flatMap (·.hole) ++ room.community :
      List String) : Multiset String) = cardBag room := by
  unfold cardBag
  rw [holesSum_eq_flatMap, Multiset.coe_add, Multiset.coe_add,
    List.append_assoc]

/-- C9: in every reachable room state outside the lobby (i.e. at every point
of a hand, including the reveal pause and the showdown), the remaining deck,
the dealt hole cards and the board together hold exactly 52 cards, and no
card occurs twice across them. -/
theorem C9_deck_integrity {hostId : String} {room : Room}
    (h : Reachable hostId room) (hstate : room.state ≠ RState.lobby) :
    room.deck.length + (room.players.map (·.hole.length)).sum +
      room.community.length = 52 ∧
    (room.deck ++ room.players.flatMap (·.hole) ++ room.community).Nodup := by
  have hinv : CardsOk room := by
    clear hstate
    induction h with
    | refl => intro hc; exact absurd rfl hc
    | tail _ hstep ih => exact cardsOk_step hstep ih
  have hbag := hinv hstate
  constructor
  · have hcard := congrArg Multiset.card hbag
    rw [cardBag_card, Multiset.coe_card] at hcard
    exact hcard.trans (by decide)
  · have hco : ((room.deck ++ room.players.flatMap (·.hole) ++
        room.community : List String) : Multiset String).Nodup := by
      rw [coe_flat_eq_cardBag, hbag]
      exact Multiset.coe_nodup.mpr (by decide)
    exact Multiset.coe_nodup.mp hco

/-- C9 witness: the deck invariant at the reachable all-in board
(2 + 2 hole cards, 5 board cards, 43 in the deck). -/
theorem C9_deck_integrity_witness :
    callRoom.deck.length + (callRoom.players.map (·.hole.length)).sum +
      callRoom.community.length = 52 ∧
    (callRoom.deck ++ callRoom.players.flatMap (·.hole) ++
      callRoom.community).Nodup :=
  C9_deck_integrity reach_callRoom (by decide)

/-! ## Bet/raise semantics (C4) -/

/-- `commitChips` once the player lookup has succeeded. -/
theorem commitChips_eq {room : Room} {pid : String} {w : Nat} {p : Player}
    (hp : room.players.find? (fun q => q.id == pid) = some p) :
    commitChips room pid w =
      { room with
        pot := room.pot + min w p.stack
        players := updateFirstById room.players pid (fun q =>
          { q with
            stack := q.stack - min w p.stack
            betThisRound := q.betThisRound + min w p.stack
            committed := q.committed + min w p.stack
            allIn := if (q.stack - min w p.stack) == 0 then true else q.allIn }) } := by
  unfold commitChips
  rw [hp]

theorem applyRaiseUpdates_pot (room : Room) (pid : String)
    (seat pb nt om : Nat) :
    (applyRaiseUpdates room pid seat pb nt om).pot = room.pot := by
  unfold applyRaiseUpdates
  split <;> rfl

theorem applyRaiseUpdates_currentBet (room : Room) (pid : String)
    (seat pb nt om : Nat) :
    (applyRaiseUpdates room pid seat pb nt om).currentBet =
      if pb < nt then nt else room.currentBet := by
  unfold applyRaiseUpdates
  split <;> rfl

theorem applyRaiseUpdates_minRaise (room : Room) (pid : String)
    (seat pb nt om : Nat) :
    (applyRaiseUpdates room pid seat pb nt om).minRaise =
      if pb < nt then (if om ≤ nt - pb then nt - pb else om)
      else room.minRaise := by
  unfold applyRaiseUpdates
  split <;> rfl

theorem applyRaiseUpdates_players (room : Room) (pid : String)
    (seat pb nt om : Nat) :
    (applyRaiseUpdates room pid seat pb nt om).players =
      if pb < nt then
        room.players.map (fun o =>
          if o.id == pid then o
          else if o.folded || o.allIn then o
          else { o with hasActed := false })
      else room.players := by
  unfold applyRaiseUpdates
  split <;> rfl

/-- The `hasActed`-reset pass of a raise preserves ids. -/
theorem resetOther_id (pid : String) (o : Player) :
    (if o.id == pid then o
      else if o.folded || o.allIn then o
      else { o with hasActed := false }).id = o.id := by
  split
  · rfl
  · split <;> rfl

/-- C4: the bet/raise branch.  With `minTo` the minimum legal total and the
proposal clamped to the player's full commitment, the action is a silent
no-op exactly when the clamped total neither reaches `minTo` nor equals the
full commitment; when accepted, the player pays the clamped total minus
`betThisRound` into the pot (going all-in when that empties the stack), the
table bet rises to the clamped total exactly when it exceeds the previous
bet, `minRaise` becomes the raise size exactly when that size reaches the
old `minRaise`, and every other non-folded, non-all-in player has `hasActed`
reset to false (others keep their fields).  Hypotheses: the acting player is
seated (found by id, unique ids), has chips, has not over-bet the table
(`betThisRound ≤ currentBet`), and the blinds/minimum raise are positive —
all invariants of reachable acting states. -/
theorem C4_bet_raise_spec (room : Room) (p : Player) (T : Nat)
    (hstack : 0 < p.stack) (hbb : 0 < room.bigBlind) (hmr : 0 < room.minRaise)
    (hbtr : p.betThisRound ≤ room.currentBet)
    (hid : (room.players.map (·.id)).Nodup)
    (hp : room.players.find? (fun q => q.id == p.id) = some p) :
    (applyBetRaise room p (T : Int) = none ↔
      ¬(betMinTo room ≤ betClamped p T ∨
        betClamped p T = p.betThisRound + p.stack)) ∧
    ∀ r, applyBetRaise room p (T : Int) = some r →
      r.pot = room.pot + (betClamped p T - p.betThisRound) ∧
      r.players.find? (fun q => q.id == p.id) = some
        { p with
          stack := p.stack - (betClamped p T - p.betThisRound)
          betThisRound := p.betThisRound + (betClamped p T - p.betThisRound)
          committed := p.committed + (betClamped p T - p.betThisRound)
          allIn := if (p.stack - (betClamped p T - p.betThisRound)) == 0 then true
            else p.allIn
          hasActed := true } ∧
      r.currentBet = (if room.currentBet < betClamped p T then betClamped p T
        else room.currentBet) ∧
      r.minRaise = (if room.currentBet < betClamped p T ∧
          room.minRaise ≤ betClamped p T - room.currentBet
        then betClamped p T - room.currentBet else room.minRaise) ∧
      ∀ q ∈ room.players, q.id ≠ p.id → q.folded = false → q.allIn = false →
        r.players.find? (fun o => o.id == q.id) =
          some (if room.currentBet < betClamped p T then { q with hasActed := false }
            else q) := by
  have hTnat : ((T : Int)).toNat = T := by omega
  have hminTo_pos : 0 < betMinTo room := by
    unfold betMinTo
    split <;> omega
  have hminTo_gt : room.currentBet < betMinTo room := by
    unfold betMinTo
    split
    · rename_i h0
      rw [beq_iff_eq] at h0
      omega
    · omega
  have hclamped_le : betClamped p T ≤ p.betThisRound + p.stack :=
    Nat.min_le_right _ _
  have hclamped_leT : betClamped p T ≤ T := Nat.min_le_left _ _
  constructor
  · constructor
    · intro hnone hacc
      unfold applyBetRaise at hnone
      by_cases hT0 : (T : Int) ≤ 0
      · have hT : T = 0 := by omega
        subst hT
        have hc0 : betClamped p 0 = 0 := by
          unfold betClamped
          omega
        rcases hacc with hle | heq
        · rw [hc0] at hle
          omega
        · rw [hc0] at heq
          omega
      · rw [if_neg hT0] at hnone
        dsimp only at hnone
        rw [hTnat] at hnone
        split at hnone
        · rename_i hcond
          rcases hacc with hle | heq
          · exact absurd hle (by omega)
          · exact hcond.2 heq
        · split at hnone
          · rename_i htp
            rw [beq_iff_eq] at htp
            rcases hacc with hle | heq
            · omega
            · omega
          · cases hnone
    · intro hnacc
      push_neg at hnacc
      obtain ⟨h1, h2⟩ := hnacc
      unfold applyBetRaise
      by_cases hT0 : (T : Int) ≤ 0
      · rw [if_pos hT0]
      · rw [if_neg hT0]
        dsimp only
        rw [hTnat]
        rw [if_pos ⟨h1, h2⟩]
  · intro r hr
    unfold applyBetRaise at hr
    by_cases hT0 : (T : Int) ≤ 0
    · rw [if_pos hT0] at hr
      cases hr
    · rw [if_neg hT0] at hr
      dsimp only at hr
      rw [hTnat] at hr
      split at hr
      · cases hr
      · rename_i hcond
        split at hr
        · cases hr
        · rename_i htp
          have htp' : betClamped p T - p.betThisRound ≠ 0 := by
            simpa using htp
          cases hr
          have hpay : min (betClamped p T - p.betThisRound) p.stack =
              betClamped p T - p.betThisRound := Nat.min_eq_left (by omega)
          rw [commitChips_eq hp, hpay]
          have hfid : ∀ q : Player,
              (({ q with
                stack := q.stack - (betClamped p T - p.betThisRound)
                betThisRound := q.betThisRound + (betClamped p T - p.betThisRound)
                committed := q.committed + (betClamped p T - p.betThisRound)
                allIn := if (q.stack - (betClamped p T - p.betThisRound)) == 0
                  then true else q.allIn } : Player)).id = q.id := fun _ => rfl
          refine ⟨?_, ?_, ?_, ?_, ?_⟩
          · show (applyRaiseUpdates _ _ _ _ _ _).pot = _
            rw [applyRaiseUpdates_pot]
          · show (updateFirstById (applyRaiseUpdates _ _ _ _ _ _).players _ _).find? _ = _
            rw [find?_updateFirstById_self _ p.id
                (fun q => { q with hasActed := true }) (fun _ => rfl),
              applyRaiseUpdates_players]
            split
            · rw [find?_map_of_id
                  (fun o => if o.id == p.id then o
                    else if o.folded || o.allIn then o
                    else { o with hasActed := false })
                  (resetOther_id p.id),
                find?_updateFirstById_self _ _ _ hfid, hp]
              simp
            · rw [find?_updateFirstById_self _ _ _ hfid, hp]
              rfl
          · show (applyRaiseUpdates _ _ _ _ _ _).currentBet = _
            rw [applyRaiseUpdates_currentBet]
          · show (applyRaiseUpdates _ _ _ _ _ _).minRaise = _
            rw [applyRaiseUpdates_minRaise]
            by_cases hcb : room.currentBet < betClamped p T
            · rw [if_pos hcb]
              by_cases hms : room.minRaise ≤ betClamped p T - room.currentBet
              · rw [if_pos hms, if_pos ⟨hcb, hms⟩]
              · rw [if_neg hms, if_neg (by rintro ⟨_, hc⟩; exact hms hc)]
            · rw [if_neg hcb, if_neg (by rintro ⟨hc, _⟩; exact hcb hc)]
          · intro q hq hqne hqf hqa
            show (updateFirstById (applyRaiseUpdates _ _ _ _ _ _).players _ _).find? _ = _
            rw [find?_updateFirstById_ne _ p.id q.id
                (fun o => { o with hasActed := true }) (fun _ => rfl) hqne,
              applyRaiseUpdates_players]
            have hbase : (updateFirstById room.players p.id (fun q =>
                { q with
                  stack := q.stack - (betClamped p T - p.betThisRound)
                  betThisRound := q.betThisRound + (betClamped p T - p.betThisRound)
                  committed := q.committed + (betClamped p T - p.betThisRound)
                  allIn := if (q.stack - (betClamped p T - p.betThisRound)) == 0
                    then true else q.allIn })).find? (fun o => o.id == q.id) =
                some q := by
              rw [find?_updateFirstById_ne _ _ _ _ hfid hqne]
              exact find?_of_mem_nodup hid hq
            split
            · rename_i hcb
              rw [find?_map_of_id
                  (fun o => if o.id == p.id then o
                    else if o.folded || o.allIn then o
                    else { o with hasActed := false })
                  (resetOther_id p.id),
                hbase]
              simp only [Option.map_some']
              rw [if_neg (by simpa using hqne), if_neg (by rw [hqf, hqa]; simp)]
            · rename_i hcb
              rw [hbase]

/-- C4 witness: a raise to 60 by the acting small blind (`B`) in the
heads-up scenario is accepted. -/
theorem C4_bet_raise_witness :
    applyBetRaise twoSeatRoom bPlayer (60 : Int) ≠ none := by
  have h := (C4_bet_raise_spec twoSeatRoom bPlayer 60 (by decide) (by decide)
    (by decide) (by decide) (by decide) (by decide)).1
  intro hc
  exact (h.mp hc) (by decide)

/-- C6 witness: a fold submitted by the out-of-turn player `A` (the action
is on seat 1) changes nothing. -/
theorem C6_illegal_action_noop_witness :
    handlePlayerAction twoSeatRoom "A" "fold" 0 = twoSeatRoom :=
  C6_illegal_action_noop twoSeatRoom "A" "fold" 0
    ((findById twoSeatRoom "A").getD (newPlayer "x" 0))
    (by decide)
    (Or.inr (Or.inl (by decide)))

/-- C3 witness: the closure predicate evaluated at the reachable room where
both players are all-in. -/
theorem C3_shouldEndBettingRound_witness :
    (¬ ∃ p ∈ callRoom.players, p.folded = false ∧ p.allIn = false) ∨
      ∀ p ∈ callRoom.players, p.folded = false → p.allIn = false →
        p.hasActed = true ∧ p.betThisRound = callRoom.currentBet :=
  (C3_shouldEndBettingRound_iff callRoom).mp (by decide)

/-! ## Busted players sit out (C10) -/

/-- Whatever seat the scan returns, its (first) player passes the requested
filters: not folded unless folded seats were included, not all-in unless
included, and with chips when a stack was required. -/
theorem nextActiveSeatAux_spec {room : Room} {incF incA reqS : Bool}
    {seat fuel s' : Nat}
    (h : nextActiveSeatAux room incF incA reqS seat fuel = some s') :
    ∃ p, room.players.find? (fun q => q.seat == s') = some p ∧
      (incF = false → p.folded = false) ∧
      (incA = false → p.allIn = false) ∧
      (reqS = true → p.stack ≠ 0) := by
  induction fuel generalizing seat with
  | zero => exact absurd h (by simp [nextActiveSeatAux])
  | succ n ih =>
    simp only [nextActiveSeatAux] at h
    split at h
    · exact ih h
    · split at h
      · exact ih h
      · split at h
        · exact ih h
        · split at h
          · exact ih h
          · rename_i p hfind h1 h2 h3
            cases h
            refine ⟨p, hfind, ?_, ?_, ?_⟩
            · intro hf
              subst hf
              simpa using h1
            · intro ha
              subst ha
              simpa using h2
            · intro hs
              subst hs
              simpa using h3

theorem nextActiveSeat_spec {room : Room} {fromSeat : Nat}
    {incF incA reqS : Bool} {s' : Nat}
    (h : nextActiveSeat room fromSeat incF incA reqS = some s') :
    ∃ p, room.players.find? (fun q => q.seat == s') = some p ∧
      (incF = false → p.folded = false) ∧
      (incA = false → p.allIn = false) ∧
      (reqS = true → p.stack ≠ 0) :=
  nextActiveSeatAux_spec h

/-- A seat is active exactly when some seated player there has chips. -/
theorem mem_activeSeats {room : Room} {s : Nat} :
    s ∈ activeSeats room ↔ ∃ p ∈ room.players, p.seat = s ∧ 0 < p.stack := by
  simp only [activeSeats, seatedPlayers, List.mem_map, List.mem_filter,
    decide_eq_true_eq]
  constructor
  · rintro ⟨p, ⟨hp, hs⟩, rfl⟩
    exact ⟨p, (List.perm_insertionSort _ _).mem_iff.mp hp, rfl, hs⟩
  · rintro ⟨p, hp, rfl, hs⟩
    exact ⟨p, ⟨(List.perm_insertionSort _ _).mem_iff.mpr hp, hs⟩, rfl⟩

/-- With two funded seats at the table, the moved dealer button lands on a
funded seat. -/
theorem beginHandDealer_active {room : Room}
    (h2 : ¬ (activeSeats room).length < 2) :
    beginHandDealer room ∈ activeSeats room := by
  unfold beginHandDealer
  split
  · rename_i hc
    cases hscan : nextActiveSeat room room.dealerSeat true true true with
    | none =>
      simpa using hc
    | some s' =>
      simp only [Option.getD_some]
      obtain ⟨p, hfind, _, _, hstk⟩ := nextActiveSeat_spec hscan
      have hpseat := List.find?_some hfind
      exact mem_activeSeats.mpr ⟨p, List.mem_of_find?_eq_some hfind,
        by simpa using hpseat, Nat.pos_of_ne_zero (hstk rfl)⟩
  · cases hl : activeSeats room with
    | nil => rw [hl] at h2; exact absurd (by decide) h2
    | cons a as =>
      exact List.mem_cons_self _ _

/-- Membership in an `updateFirstBySeat` rewrite, locating the rewritten
player as the seat lookup's result. -/
theorem mem_updateFirstBySeat_find {ps : List Player} {s : Nat}
    {f : Player → Player} {q : Player} (hq : q ∈ updateFirstBySeat ps s f) :
    q ∈ ps ∨
      ∃ p, ps.find? (fun x => x.seat == s) = some p ∧ q = f p := by
  induction ps with
  | nil => simp [updateFirstBySeat] at hq
  | cons p ps ih =>
    simp only [updateFirstBySeat] at hq
    split at hq
    · rename_i hs
      rcases List.mem_cons.mp hq with rfl | hq'
      · exact Or.inr ⟨p, by simp [List.find?_cons, hs], rfl⟩
      · exact Or.inl (List.mem_cons_of_mem _ hq')
    · rename_i hs
      rcases List.mem_cons.mp hq with rfl | hq'
      · exact Or.inl (List.mem_cons_self _ _)
      · rcases ih hq' with h | ⟨p', hp', rfl⟩
        · exact Or.inl (List.mem_cons_of_mem _ h)
        · refine Or.inr ⟨p', ?_, rfl⟩
          simp only [List.find?_cons, hp']
          simp only [Bool.not_eq_true] at hs
          rw [hs]

/-! ### Seat/folded transport: blinds and dealing touch neither field -/

theorem sf_map {ps : List Player} {f : Player → Player}
    (h1 : ∀ q, (f q).seat = q.seat) (h2 : ∀ q, (f q).folded = q.folded) :
    (ps.map f).map (fun p => (p.seat, p.folded)) =
      ps.map (fun p => (p.seat, p.folded)) := by
  rw [List.map_map]
  exact List.map_congr_left (fun q _ => by simp [h1 q, h2 q])

theorem sf_updateFirstById {ps : List Player} {pid : String}
    {f : Player → Player}
    (h1 : ∀ q, (f q).seat = q.seat) (h2 : ∀ q, (f q).folded = q.folded) :
    (updateFirstById ps pid f).map (fun p => (p.seat, p.folded)) =
      ps.map (fun p => (p.seat, p.folded)) := by
  induction ps with
  | nil => rfl
  | cons p ps ih =>
    simp only [updateFirstById]
    split
    · simp only [List.map_cons, h1 p, h2 p]
    · simp only [List.map_cons, ih]

theorem sf_updateFirstBySeat {ps : List Player} {s : Nat}
    {f : Player → Player}
    (h1 : ∀ q, (f q).seat = q.seat) (h2 : ∀ q, (f q).folded = q.folded) :
    (updateFirstBySeat ps s f).map (fun p => (p.seat, p.folded)) =
      ps.map (fun p => (p.seat, p.folded)) := by
  induction ps with
  | nil => rfl
  | cons p ps ih =>
    simp only [updateFirstBySeat]
    split
    · simp only [List.map_cons, h1 p, h2 p]
    · simp only [List.map_cons, ih]

theorem sf_commitChips (room : Room) (pid : String) (w : Nat) :
    (commitChips room pid w).players.map (fun p => (p.seat, p.folded)) =
      room.players.map (fun p => (p.seat, p.folded)) := by
  unfold commitChips
  split
  · rfl
  · exact sf_updateFirstById (by intro q; rfl) (by intro q; rfl)

theorem sf_postBlinds (room : Room) :
    (postBlinds room).1.players.map (fun p => (p.seat, p.folded)) =
      room.players.map (fun p => (p.seat, p.folded)) := by
  unfold postBlinds
  dsimp only
  split
  · rfl
  · split
    · rfl
    · split
      · rfl
      · split
        · rw [sf_map (by intro q; split <;> rfl) (by intro q; split <;> rfl),
            sf_commitChips, sf_commitChips]
        · rfl

theorem sf_dealOneTo (room : Room) (s : Nat) :
    (dealOneTo room s).players.map (fun p => (p.seat, p.folded)) =
      room.players.map (fun p => (p.seat, p.folded)) := by
  unfold dealOneTo
  split
  · rfl
  · split
    · rfl
    · exact sf_updateFirstBySeat (by intro q; rfl) (by intro q; rfl)

theorem sf_dealLoop (room : Room) (seat? : Option Nat) (n : Nat) :
    (dealLoop room seat? n).players.map (fun p => (p.seat, p.folded)) =
      room.players.map (fun p => (p.seat, p.folded)) := by
  induction n generalizing room seat? with
  | zero => cases seat? <;> rfl
  | succ n ih =>
    cases seat? with
    | none => rfl
    | some s =>
      show (dealLoop (dealOneTo room s) _ n).players.map _ = _
      rw [ih, sf_dealOneTo]

theorem sf_dealHoleCards (room : Room) :
    (dealHoleCards room).players.map (fun p => (p.seat, p.folded)) =
      room.players.map (fun p => (p.seat, p.folded)) := by
  unfold dealHoleCards
  dsimp only
  split
  · rfl
  · rw [sf_dealLoop]

/-- A non-folded player at a given seat survives any players rewrite that
keeps every seat and folded flag. -/
theorem sf_transport {ps ps' : List Player}
    (hsf : ps'.map (fun p => (p.seat, p.folded)) =
      ps.map (fun p => (p.seat, p.folded)))
    {s : Nat} (h : ∃ q ∈ ps, q.seat = s ∧ q.folded = false) :
    ∃ q ∈ ps', q.seat = s ∧ q.folded = false := by
  obtain ⟨q, hq, hs, hf⟩ := h
  have hmem : (s, false) ∈ ps'.map (fun p => (p.seat, p.folded)) := by
    rw [hsf]
    exact List.mem_map.mpr ⟨q, hq, by rw [hs, hf]⟩
  obtain ⟨q', hq', hval⟩ := List.mem_map.mp hmem
  exact ⟨q', hq', congrArg Prod.fst hval, congrArg Prod.snd hval⟩

theorem seat_folded_witness_postBlinds {r : Room} {s : Nat}
    (h : ∃ q ∈ r.players, q.seat = s ∧ q.folded = false) :
    ∃ q ∈ (postBlinds r).1.players, q.seat = s ∧ q.folded = false :=
  sf_transport (sf_postBlinds r) h

theorem seat_folded_witness_dealHoleCards {r : Room} {s : Nat}
    (h : ∃ q ∈ r.players, q.seat = s ∧ q.folded = false) :
    ∃ q ∈ (dealHoleCards r).players, q.seat = s ∧ q.folded = false :=
  sf_transport (sf_dealHoleCards r) h

/-! ### The dealer button is unmoved by blinds and dealing -/

theorem dealerSeat_commitChips (room : Room) (pid : String) (w : Nat) :
    (commitChips room pid w).dealerSeat = room.dealerSeat := by
  unfold commitChips
  split <;> rfl

theorem dealerSeat_postBlinds (room : Room) :
    (postBlinds room).1.dealerSeat = room.dealerSeat := by
  unfold postBlinds
  dsimp only
  split
  · rfl
  · split
    · rfl
    · split
      · rfl
      · split
        · show (commitChips (commitChips room _ _) _ _).dealerSeat = _
          rw [dealerSeat_commitChips, dealerSeat_commitChips]
        · rfl

theorem dealerSeat_dealOneTo (room : Room) (s : Nat) :
    (dealOneTo room s).dealerSeat = room.dealerSeat := by
  unfold dealOneTo
  split
  · rfl
  · split <;> rfl

theorem dealerSeat_dealLoop (room : Room) (seat? : Option Nat) (n : Nat) :
    (dealLoop room seat? n).dealerSeat = room.dealerSeat := by
  induction n generalizing room seat? with
  | zero => cases seat? <;> rfl
  | succ n ih =>
    cases seat? with
    | none => rfl
    | some s =>
      show (dealLoop (dealOneTo room s) _ n).dealerSeat = _
      rw [ih, dealerSeat_dealOneTo]

theorem dealerSeat_dealHoleCards (room : Room) :
    (dealHoleCards room).dealerSeat = room.dealerSeat := by
  unfold dealHoleCards
  dsimp only
  split
  · rfl
  · rw [dealerSeat_dealLoop]

/-! ### Busted players receive no cards -/

theorem busted_resetForNewHand {room : Room} {deck : List String} :
    ∀ q ∈ (resetForNewHand room deck).players, BustedSitsOut q := by
  intro q hq
  rcases List.mem_map.mp hq with ⟨p, hp, rfl⟩
  constructor
  · intro hf
    have hf' : decide (p.stack ≤ 0) = true := hf
    have hle := of_decide_eq_true hf'
    show p.stack = 0
    omega
  · intro _
    rfl

theorem busted_commitChips {room : Room} {pid : String} {w : Nat}
    (h : ∀ q ∈ room.players, BustedSitsOut q) :
    ∀ q ∈ (commitChips room pid w).players, BustedSitsOut q := by
  unfold commitChips
  split
  · exact h
  · intro q hq
    rcases mem_updateFirstById hq with hq' | ⟨p, hp, rfl⟩
    · exact h q hq'
    · have hp' := h p hp
      constructor
      · intro hf
        have hf' : p.folded = true := hf
        have h0 := hp'.1 hf'
        dsimp only
        omega
      · intro hf
        have hf' : p.folded = true := hf
        exact hp'.2 hf'

theorem busted_postBlinds {room : Room}
    (h : ∀ q ∈ room.players, BustedSitsOut q) :
    ∀ q ∈ (postBlinds room).1.players, BustedSitsOut q := by
  unfold postBlinds
  dsimp only
  split
  · exact h
  · split
    · exact h
    · split
      · exact h
      · split
        · intro q hq
          rcases List.mem_map.mp hq with ⟨p, hp, rfl⟩
          have hp' := busted_commitChips (busted_commitChips h) p hp
          split <;> exact hp'
        · exact h

theorem busted_dealOneTo {room : Room} {s : Nat}
    (hs : ∀ p, room.players.find? (fun x => x.seat == s) = some p →
      p.stack ≠ 0)
    (h : ∀ q ∈ room.players, BustedSitsOut q) :
    ∀ q ∈ (dealOneTo room s).players, BustedSitsOut q := by
  unfold dealOneTo
  split
  · exact h
  · split
    · exact h
    · intro q hq
      dsimp only at hq
      rcases mem_updateFirstBySeat_find hq with hq' | ⟨p, hp, rfl⟩
      · exact h q hq'
      · have hstk := hs p hp
        have hb := h p (List.mem_of_find?_eq_some hp)
        constructor
        · intro hf
          have hf' : p.folded = true := hf
          exact hb.1 hf'
        · intro hf
          have hf' : p.folded = true := hf
          exact absurd (hb.1 hf') hstk

theorem busted_dealLoop {room : Room} {seat? : Option Nat} {n : Nat}
    (hseat : ∀ s, seat? = some s →
      ∀ p, room.players.find? (fun x => x.seat == s) = some p → p.stack ≠ 0)
    (h : ∀ q ∈ room.players, BustedSitsOut q) :
    ∀ q ∈ (dealLoop room seat? n).players, BustedSitsOut q := by
  induction n generalizing room seat? with
  | zero => cases seat? <;> exact h
  | succ n ih =>
    cases seat? with
    | none => exact h
    | some s =>
      show ∀ q ∈ (dealLoop (dealOneTo room s) _ n).players, _
      refine ih ?_ (busted_dealOneTo (hseat s rfl) h)
      intro s'' hsc p hp
      obtain ⟨p', hfind', -, -, hstk⟩ := nextActiveSeat_spec hsc
      rw [hp] at hfind'
      cases hfind'
      exact hstk rfl

theorem busted_dealHoleCards {room : Room}
    (h : ∀ q ∈ room.players, BustedSitsOut q) :
    ∀ q ∈ (dealHoleCards room).players, BustedSitsOut q := by
  unfold dealHoleCards
  dsimp only
  split
  · exact h
  · refine busted_dealLoop ?_ h
    intro s hsc p hp
    obtain ⟨p', hfind', -, -, hstk⟩ := nextActiveSeat_spec hsc
    rw [hp] at hfind'
    cases hfind'
    exact hstk rfl

/-- At the start of a hand that actually begins, every folded player —
in particular every busted one — holds no hole cards. -/
theorem beginHand_busted_sits_out {room : Room} {deck : List String}
    (hst : (beginHand room deck).state = RState.hand) :
    ∀ q ∈ (beginHand room deck).players, q.folded = true → q.hole = [] := by
  unfold beginHand at hst ⊢
  by_cases hg : (activeSeats room).length < 2
  · rw [if_pos hg] at hst
    exact RState.noConfusion hst
  · rw [if_neg hg]
    simp only [beginHandGo]
    intro q hq
    exact (busted_dealHoleCards (busted_postBlinds busted_resetForNewHand)
      q hq).2

/-! ### The acting seat is never a folded player's -/

theorem seatOk_startBettingRound (room : Room) :
    SeatOk (startBettingRound room) := by
  intro hhand s hcs
  simp only [startBettingRound] at hcs
  obtain ⟨p, hfind, hnf, -, -⟩ := nextActiveSeat_spec hcs
  refine ⟨p, ?_, by simpa using List.find?_some hfind, hnf rfl⟩
  simp only [startBettingRound]
  exact List.mem_of_find?_eq_some hfind

theorem seatOk_moveToNextActor (room : Room) :
    SeatOk (moveToNextActor room) := by
  intro hhand s hcs
  unfold moveToNextActor at hcs ⊢
  cases hrc : room.currentSeat with
  | none =>
    rw [hrc] at hcs
    simp at hcs
  | some s₀ =>
    rw [hrc] at hcs
    dsimp only at hcs ⊢
    obtain ⟨p, hfind, hnf, -, -⟩ := nextActiveSeat_spec hcs
    exact ⟨p, List.mem_of_find?_eq_some hfind,
      by simpa using List.find?_some hfind, hnf rfl⟩

theorem seatOk_awardPotToSync (room : Room) (pid : String) :
    SeatOk (awardPotToSync room pid) := by
  intro hh s hcs
  exact RState.noConfusion hh

theorem seatOk_advanceStageSync (room : Room) :
    SeatOk (advanceStageSync room) := by
  unfold advanceStageSync
  split
  · exact seatOk_startBettingRound _
  · exact seatOk_startBettingRound _
  · exact seatOk_startBettingRound _
  · intro hh s hcs
    exact RState.noConfusion hh

theorem seatOk_dealThroughReveal (room : Room) :
    SeatOk (dealThroughReveal room) := by
  intro hh s hcs
  exact RState.noConfusion hh

theorem seatOk_postPhase (room : Room) : SeatOk (postPhase room) := by
  unfold postPhase
  split
  · exact seatOk_awardPotToSync _ _
  · split
    · dsimp only
      split
      · exact seatOk_advanceStageSync _
      · exact seatOk_dealThroughReveal _
    · exact seatOk_moveToNextActor _

theorem seatOk_handlePlayerAction {room : Room} (h : SeatOk room)
    (pid action : String) (amount : Int) :
    SeatOk (handlePlayerAction room pid action amount) := by
  unfold handlePlayerAction
  split
  · exact h
  · split
    · exact h
    · split
      · exact h
      · split
        · exact h
        · split
          · exact h
          · split
            · exact h
            · dsimp only
              split
              · exact seatOk_postPhase _
              · split
                · split
                  · exact h
                  · exact seatOk_postPhase _
                · split
                  · split
                    · exact seatOk_postPhase _
                    · exact seatOk_postPhase _
                  · split
                    · split
                      · exact h
                      · exact seatOk_postPhase _
                    · split
                      · split
                        · exact h
                        · exact seatOk_postPhase _
                      · exact h

theorem seatOk_beginHand {room : Room} {deck : List String} :
    SeatOk (beginHand room deck) := by
  intro hhand s hcs
  unfold beginHand at hhand hcs ⊢
  by_cases hg : (activeSeats room).length < 2
  · rw [if_pos hg] at hhand
    exact RState.noConfusion hhand
  · rw [if_neg hg] at hhand hcs ⊢
    simp only [beginHandGo] at hcs ⊢
    simp only [firstToActPreflop] at hcs
    split at hcs
    · cases hcs
      rw [dealerSeat_dealHoleCards, dealerSeat_postBlinds]
      obtain ⟨p₀, hp₀, hseat₀, hstk₀⟩ :=
        mem_activeSeats.mp (beginHandDealer_active hg)
      exact seat_folded_witness_dealHoleCards (seat_folded_witness_postBlinds
        ⟨_, List.mem_map.mpr ⟨p₀, hp₀, rfl⟩, hseat₀,
          decide_eq_false (by omega)⟩)
    · split at hcs
      · obtain ⟨p, hfind, hnf, -, -⟩ := nextActiveSeat_spec hcs
        exact ⟨p, List.mem_of_find?_eq_some hfind,
          by simpa using List.find?_some hfind, hnf rfl⟩
      · exact absurd hcs (by simp)

theorem seatOk_nextHandReset {room : Room} {deck : List String} :
    SeatOk (nextHandReset room deck) := by
  simp only [nextHandReset]
  split
  · exact seatOk_beginHand
  · intro hh s hcs
    exact RState.noConfusion hh

theorem joinRoom_of_not_lobby {room : Room} {pid : String}
    (h : room.state ≠ RState.lobby) : joinRoom room pid = room := by
  unfold joinRoom
  split
  · rfl
  · rfl

/-- Every room transition preserves the acting-seat invariant. -/
theorem seatOk_step {room room' : Room} (hstep : Step room room')
    (h : SeatOk room) : SeatOk room' := by
  cases hstep with
  | join pid =>
    by_cases hl : room.state = RState.lobby
    · intro hh s hcs
      rw [joinRoom_state, hl] at hh
      exact RState.noConfusion hh
    · rw [joinRoom_of_not_lobby hl]
      exact h
  | blinds sb bb => exact h
  | start deck hdeck =>
    unfold startGameOp
    split
    · exact seatOk_beginHand
    · exact h
  | act pid action amount => exact seatOk_handlePlayerAction h pid action amount
  | reveal winnersOf hwf hst =>
    intro hh s hcs
    exact RState.noConfusion hh
  | nextHand deck hdeck hst => exact seatOk_nextHandReset

theorem seatOk_reachable {hostId : String} {room : Room}
    (h : Reachable hostId room) : SeatOk room := by
  induction h with
  | refl => intro hh s hcs; exact RState.noConfusion hh
  | tail _ hstep ih => exact seatOk_step hstep ih

/-- C10: the new-hand reset folds exactly the broke players (stack `<= 0`)
and unfolds everyone else; consequently, in any hand that starts, a folded
(in particular busted) player is dealt no hole cards; and in every reachable
in-hand state the acting seat, when set, belongs to a seated player who is
not folded — so a busted player can never be on the action while staying
seated. -/
theorem C10_busted_players_sidelined :
    (∀ (room : Room) (deck : List String),
      (resetForNewHand room deck).players.map (·.folded) =
        room.players.map (fun p => decide (p.stack ≤ 0))) ∧
    (∀ (room : Room) (deck : List String),
      (beginHand room deck).state = RState.hand →
      ∀ q ∈ (beginHand room deck).players, q.folded = true → q.hole = []) ∧
    (∀ (hostId : String) (room : Room), Reachable hostId room →
      room.state = RState.hand → ∀ s, room.currentSeat = some s →
        ∃ p ∈ room.players, p.seat = s ∧ p.folded = false) := by
  refine ⟨?_, ?_, ?_⟩
  · intro room deck
    simp only [resetForNewHand, List.map_map]
    rfl
  · intro room deck hst
    exact beginHand_busted_sits_out hst
  · intro hostId room hreach
    exact seatOk_reachable hreach

/-- C10 witness: starting a hand at the three-seat table with a busted
seat-1 player folds that player with no cards, and in the reachable heads-up
hand the acting seat 1 is a live player's. -/
theorem C10_busted_players_sidelined_witness :
    ((resetForNewHand bustTrioRoom standardDeck).players.map (·.folded) =
      bustTrioRoom.players.map (fun p => decide (p.stack ≤ 0))) ∧
    bustedTrioQ.hole = [] ∧
    ∃ p ∈ twoSeatRoom.players, p.seat = 1 ∧ p.folded = false :=
  ⟨C10_busted_players_sidelined.1 bustTrioRoom standardDeck,
   C10_busted_players_sidelined.2.1 bustTrioRoom standardDeck (by decide)
     bustedTrioQ (by decide) (by decide),
   C10_busted_players_sidelined.2.2 "A" twoSeatRoom reach_twoSeatRoom
     (by decide) 1 (by decide)⟩

end Poker
